import Mathlib

/-!
Verification of the deco-plus core event system (src/src/system/core-system.ts,
first variant, lines 1-665).  The development embeds the instance-data model,
the queue-driven event dispatcher (System.processEvents / queueEvent), the
hierarchical Component.processEvent with default parent propagation, and the
instance-relationship operations (createInstance, setInstanceParent,
determineSiblingIndex, createInstanceInOrder), and settles the frozen claims
about them.  Definitions come first, theorems after.
-/

/-- JSON-like runtime value, modelling the `unknown` values stored in
`ComponentData`/`EventData` records. -/
inductive Value where
  | vStr : String → Value
  | vInt : Int → Value
  | vBool : Bool → Value
  | vObj : List (String × Value) → Value
  | vArr : List Value → Value

/-- A JavaScript object: ordered own properties.  A live JS object never has
two own properties with the same key, so the embedding treats the first
binding of a key as the binding. -/
abbrev Obj := List (String × Value)

/-- Property read, `m[k]`: the value at the binding of `k`, if any. -/
def getKey? (m : Obj) (k : String) : Option Value :=
  (m.find? (fun p => p.1 = k)).map (fun p => p.2)

/-- Property write, `m[k] = v`: replaces the value at an existing key in
place (JS objects keep the original key position), otherwise appends the new
key at the end, exactly as JS property assignment does. -/
def setKey (m : Obj) (k : String) (v : Value) : Obj :=
  match m with
  | [] => [(k, v)]
  | p :: rest => if p.1 = k then (p.1, v) :: rest else p :: setKey rest k v

/-- Embeds `Object.assign(target, update)`: each own key of `update`, in
order, is written into `target`. -/
def objAssign (target update : Obj) : Obj :=
  update.foldl (fun acc kv => setKey acc kv.1 kv.2) target

/-- Embeds `Component.updateInstance` (core-system.ts lines 392-398): look the
instance up in the store, throw if absent, otherwise `Object.assign` the
update into the stored record (the stored object is mutated in place, so the
store now maps the id to the merged record). -/
def updateInstanceData (insts : List (String × Obj)) (instanceId : String)
    (update : Obj) : Except String (List (String × Obj)) :=
  match insts.find? (fun p => p.1 = instanceId) with
  | none => .error ("Instance " ++ instanceId ++ " not found")
  | some _ => .ok (insts.map (fun p =>
      if p.1 = instanceId then (p.1, objAssign p.2 update) else p))

/-- Embeds `Map.get` on an instance store (`Component.getInstance`,
core-system.ts lines 317-319). -/
def storeGet? (insts : List (String × Obj)) (id : String) : Option Obj :=
  (insts.find? (fun p => p.1 = id)).map (fun p => p.2)

/-- Instance store of the merge-semantics example: Alice before the update. -/
def aliceStore : List (String × Obj) :=
  [(("person_1" : String),
    [(("name" : String), Value.vStr ("Alice")),
     (("age" : String), Value.vInt 20),
     (("isHungry" : String), Value.vBool false),
     (("movementMethod" : String), Value.vStr ("walking"))])]

/-- Instance store of the nested-replacement example: stats before. -/
def statsStore : List (String × Obj) :=
  [(("person_1" : String),
    [(("stats" : String),
      Value.vObj [(("strength" : String), Value.vInt 10),
                  (("speed" : String), Value.vInt 10)])])]

/-- Trace entry of one handler invocation: (component, event, instanceId). -/
abbrev TraceEntry := String × String × String

/-- One entry of a handler's send list: optional target component, event
name, event data. -/
structure SendEntry where
  component? : Option String
  event : String
  data : Obj

/-- Result object returned by an event handler: optional instance update,
optional list of events to send. -/
structure HandlerResult where
  update? : Option Obj
  send? : Option (List SendEntry)

/-- An event handler.  The TS handler receives (instanceId, data, component);
the embedding passes the instance's current stored record in place of the
component handle — the only component state the handlers under study consult
— and models a thrown exception as an error value. -/
abbrev Handler := String → Obj → Option Obj → Except String HandlerResult

/-- A component as the dispatcher sees it: name, declared parent component
(used by the hierarchical variant), event-handler registry, instance store. -/
structure DComp where
  name : String
  parentName : Option String
  handlers : List (String × Handler)
  insts : List (String × Obj)

/-- A queued event, exactly the record pushed by `System.queueEvent`. -/
structure QEvent where
  component : String
  instanceId : String
  event : String
  data : Obj

/-- The System: component registry plus the global FIFO event queue. -/
structure DSys where
  comps : List DComp
  queue : List QEvent

/-- Embeds `System.getComponent`. -/
def DSys.getComp (sys : DSys) (name : String) : Option DComp :=
  sys.comps.find? (fun c => c.name = name)

/-- Embeds `Component.getEventHandler`. -/
def DComp.getHandler (c : DComp) (ev : String) : Option Handler :=
  (c.handlers.find? (fun p => p.1 = ev)).map (fun p => p.2)

/-- Replaces the named component's instance store (the effect of the in-place
mutation done by `Component.updateInstance` on the live component). -/
def DSys.setCompInsts (sys : DSys) (cn : String)
    (insts : List (String × Obj)) : DSys :=
  { sys with comps := (sys.comps.map
      (fun c => if c.name = cn then { c with insts := insts } else c)) }

/-- Models the TS `as string` cast on a payload's instanceId value; payload
instance ids are strings throughout the system. -/
def Value.asString : Value → String
  | .vStr s => s
  | _ => ""

/-- Embeds lines 571-591 of `System.processEvents`: the queue entry built for
one handler-returned send.  Target component defaults to the component just
processed; the target instance id comes from the payload's instanceId key
when present, else from the event just processed. -/
def resolveSend (e : QEvent) (en : SendEntry) : QEvent :=
  { component := en.component?.getD e.component
    instanceId :=
      match getKey? en.data ("instanceId") with
      | some v => v.asString
      | none => e.instanceId
    event := en.event
    data := en.data }

/-- Outcome of one iteration of the `processEvents` drain loop. -/
inductive StepStatus where
  | empty : StepStatus
  | ok : Option TraceEntry → StepStatus
  | threw : TraceEntry → String → StepStatus

/-- One iteration of the `System.processEvents` drain loop (core-system.ts
lines 528-597): shift the head event; a missing component or missing handler
is logged and skipped; the handler runs; a thrown exception is rethrown; an
update targeting a missing instance is logged and the whole event dropped;
otherwise the update is applied and each send is queued at the tail. -/
def processOne (sys : DSys) : StepStatus × DSys :=
  match sys.queue with
  | [] => (.empty, sys)
  | e :: rest =>
    match sys.getComp e.component with
    | none => (.ok none, { sys with queue := rest })
    | some comp =>
      match comp.getHandler e.event with
      | none => (.ok none, { sys with queue := rest })
      | some h =>
        match h e.instanceId e.data (storeGet? comp.insts e.instanceId) with
        | .error msg =>
          (.threw (e.component, e.event, e.instanceId) msg, { sys with queue := rest })
        | .ok res =>
          match res.update? with
          | some u =>
            match storeGet? comp.insts e.instanceId with
            | none => (.ok (some (e.component, e.event, e.instanceId)), { sys with queue := rest })
            | some _ =>
              match updateInstanceData comp.insts e.instanceId u with
              | .error msg =>
                (.threw (e.component, e.event, e.instanceId) msg, { sys with queue := rest })
              | .ok insts' =>
                match res.send? with
                | none =>
                  (.ok (some (e.component, e.event, e.instanceId)),
                   DSys.setCompInsts { sys with queue := rest } e.component insts')
                | some sends =>
                  (.ok (some (e.component, e.event, e.instanceId)),
                   DSys.setCompInsts
                     { sys with queue := rest ++ sends.map (resolveSend e) }
                     e.component insts')
          | none =>
            match res.send? with
            | none => (.ok (some (e.component, e.event, e.instanceId)), { sys with queue := rest })
            | some sends =>
              (.ok (some (e.component, e.event, e.instanceId)),
               { sys with queue := rest ++ sends.map (resolveSend e) })

/-- Result of a full drain: how it ended. -/
inductive DrainStatus where
  | drained : DrainStatus
  | threw : String → DrainStatus
  | fuelOut : DrainStatus
deriving DecidableEq

/-- The `processEvents` drain loop, fuelled (the TS loop runs until the queue
empties or a handler throws; fuel bounds the iterations of the embedding).
Returns the handler-invocation trace, how the drain ended, and the final
system state. -/
def drain : Nat → DSys → List TraceEntry × DrainStatus × DSys
  | 0, sys => ([], .fuelOut, sys)
  | fuel + 1, sys =>
    match processOne sys with
    | (.empty, s) => ([], .drained, s)
    | (.ok tr, s) =>
      let r := drain fuel s
      (tr.toList ++ r.1, r.2.1, r.2.2)
    | (.threw tr msg, s) => ([tr], .threw msg, s)

/-- Embeds `System.queueEvent` (lines 517-525): push at the tail. -/
def queueEvent (sys : DSys) (component instanceId event : String)
    (data : Obj) : DSys :=
  { sys with queue := sys.queue ++
      [{ component := component, instanceId := instanceId,
         event := event, data := data }] }

/-- All instance data of the system, for stating that a step leaves every
instance store unchanged. -/
def instsView (sys : DSys) : List (String × List (String × Obj)) :=
  sys.comps.map (fun c => (c.name, c.insts))

/-- FIFO scenario handler H1: sends EVENT_2_OCCURRED. -/
def fifoHandler1 : Handler := fun _ _ _ =>
  .ok { update? := none,
        send? := some [{ component? := none, event := ("EVENT_2_OCCURRED"), data := [] }] }

/-- FIFO scenario handler H2: sends EVENT_3_OCCURRED. -/
def fifoHandler2 : Handler := fun _ _ _ =>
  .ok { update? := none,
        send? := some [{ component? := none, event := ("EVENT_3_OCCURRED"), data := [] }] }

/-- FIFO scenario handler H3: terminal. -/
def fifoHandler3 : Handler := fun _ _ _ =>
  .ok { update? := none, send? := none }

/-- System of the FIFO test scenario before queueing. -/
def fifoSys : DSys :=
  { comps :=
      [{ name := ("system"), parentName := none, handlers := [], insts := [] },
       { name := ("person"), parentName := none,
         handlers :=
           [(("EVENT_1_OCCURRED" : String), fifoHandler1),
            (("EVENT_2_OCCURRED" : String), fifoHandler2),
            (("EVENT_3_OCCURRED" : String), fifoHandler3)],
         insts := [(("person_1" : String), [])] }],
    queue := [] }

/-- FIFO scenario after queueing EVENT_1_OCCURRED. -/
def fifoStart : DSys :=
  queueEvent fifoSys ("person") ("person_1") ("EVENT_1_OCCURRED") []

/-- The queued E1 event of the FIFO scenario. -/
def fifoE1 : QEvent :=
  { component := ("person"), instanceId := ("person_1"),
    event := ("EVENT_1_OCCURRED"), data := [] }

/-- A handler that updates isHungry, for the structural-failure scenarios. -/
def c3Handler : Handler := fun _ _ _ =>
  .ok { update? := some [(("isHungry" : String), Value.vBool true)], send? := none }

/-- Queued event naming an unregistered component. -/
def c3eGhost : QEvent :=
  { component := ("ghost"), instanceId := ("g_1"), event := ("E"), data := [] }

/-- System whose head event names an unregistered component. -/
def c3SysA : DSys :=
  { comps := [{ name := ("person"), parentName := none, handlers := [], insts := [] }],
    queue := [c3eGhost] }

/-- Queued event whose name has no registered handler. -/
def c3eNoHandler : QEvent :=
  { component := ("person"), instanceId := ("person_1"),
    event := ("UNKNOWN_EVENT"), data := [] }

/-- System whose head event has no handler on its component. -/
def c3SysB : DSys :=
  { comps := [{ name := ("person"), parentName := none,
                handlers := [(("FELT_HUNGER" : String), c3Handler)],
                insts := [(("person_1" : String), [])] }],
    queue := [c3eNoHandler] }

/-- Queued event whose update will target a missing instance. -/
def c3eNoInst : QEvent :=
  { component := ("person"), instanceId := ("nonexistent"),
    event := ("FELT_HUNGER"), data := [] }

/-- System whose head event's handler update targets a missing instance. -/
def c3SysC : DSys :=
  { comps := [{ name := ("person"), parentName := none,
                handlers := [(("FELT_HUNGER" : String), c3Handler)],
                insts := [] }],
    queue := [c3eNoInst] }

/-- A handler that throws. -/
def throwHandler : Handler := fun _ _ _ => .error ("Test error")

/-- A terminal handler that neither updates nor sends. -/
def okHandler : Handler := fun _ _ _ => .ok { update? := none, send? := none }

/-- First queued event of the throwing scenario (processed fine). -/
def c4e1 : QEvent :=
  { component := ("person"), instanceId := ("person_1"),
    event := ("EVENT_A"), data := [] }

/-- Second queued event of the throwing scenario: its handler throws. -/
def c4e2 : QEvent :=
  { component := ("person"), instanceId := ("person_1"),
    event := ("ERROR_OCCURRED"), data := [] }

/-- Third queued event of the throwing scenario: left unprocessed. -/
def c4e3 : QEvent :=
  { component := ("person"), instanceId := ("person_1"),
    event := ("EVENT_C"), data := [] }

/-- System with queue [EVENT_A, ERROR_OCCURRED, EVENT_C] whose second
handler throws. -/
def c4Sys : DSys :=
  { comps := [{ name := ("person"), parentName := none,
                handlers := [(("EVENT_A" : String), okHandler),
                             (("ERROR_OCCURRED" : String), throwHandler),
                             (("EVENT_C" : String), okHandler)],
                insts := [(("person_1" : String), [])] }],
    queue := [c4e1, c4e2, c4e3] }

/-- The throwing scenario at the moment the throwing event is at the head. -/
def c4ThrowNow : DSys := { c4Sys with queue := [c4e2, c4e3] }

/-- A handler returning two sends: one with explicit component and payload
instanceId, one with neither. -/
def c9Handler : Handler := fun _ _ _ =>
  .ok { update? := none,
        send? := some
          [{ component? := some ("fridge"), event := ("FRIDGE_OPENED"),
             data := [(("instanceId" : String), Value.vStr ("fridge_1"))] },
           { component? := none, event := ("STARTED_MOVING"), data := [] }] }

/-- The queued event of the send-resolution scenario. -/
def c9e : QEvent :=
  { component := ("person"), instanceId := ("person_1"),
    event := ("FELT_HUNGER"), data := [] }

/-- System of the send-resolution scenario. -/
def c9Sys : DSys :=
  { comps := [{ name := ("person"), parentName := none,
                handlers := [(("FELT_HUNGER" : String), c9Handler)],
                insts := [(("person_1" : String), [])] }],
    queue := [c9e] }

/-- JS truthiness of an optional string: undefined and the empty string are
falsy, every other string is truthy. -/
def strTruthy : Option String → Bool
  | none => false
  | some s => s != ""

/-- Embeds `Component.shouldPropagateToParent`'s list of events that should
not propagate to the parent (core-system.ts line 111). -/
def nonPropagatingEvents : List String :=
  [("init"), ("destroy"), ("update"), ("childUpdate")]

/-- Embeds `Component.shouldPropagateToParent` (lines 109-113). -/
def shouldPropagateToParent (event : String) : Bool :=
  !(nonPropagatingEvents.contains event)

/-- Output of the hierarchical `Component.processEvent`: the error message if
a handler threw (the exception propagates to the caller), the resulting
system state, the returned events-to-send, and the handler-invocation
trace. -/
structure PEOut where
  err? : Option String
  sys : DSys
  sends : List SendEntry
  trace : List TraceEntry

/-- Applies a handler's update through `Component.updateInstance`, lifted to
the system state; the component is resolved by name (it is the component the
event was processed on, so the lookup succeeds at every call site). -/
def applyUpdateD (sys : DSys) (cn inst : String) (u : Obj) : Except String DSys :=
  match sys.getComp cn with
  | none => .error ("Component " ++ cn ++ " not found")
  | some comp =>
    match updateInstanceData comp.insts inst u with
    | .error msg => .error msg
    | .ok insts' => .ok (sys.setCompInsts cn insts')

/-- The `if (result.update) this.updateInstance(...)` step of
`Component.processEvent`. -/
def stepUpdate (sys : DSys) (cn inst : String) (u? : Option Obj) :
    Except String DSys :=
  match u? with
  | none => .ok sys
  | some u => applyUpdateD sys cn inst u

/-- Reads the live instance's parentInstanceId after any update (the TS code
reads `instance.parentInstanceId` from the mutated instance object); the
value is a string id, and JS truthiness makes the empty string falsy. -/
def liveParentInstanceId (sys : DSys) (cn inst : String) : Option String :=
  match (sys.getComp cn).bind (fun c => storeGet? c.insts inst) with
  | none => none
  | some o =>
    match getKey? o ("parentInstanceId") with
    | some (.vStr s) => if s = "" then none else some s
    | _ => none

/-- Embeds the hierarchical `Component.processEvent` (core-system.ts lines
327-390), fuelled against parent-chain cycles.  A missing instance or
handler warns and returns []; a thrown handler exception propagates;
otherwise the update is applied, and when the handler did not set `send`,
the component has a truthy declared parent, the event is
propagation-eligible and the (possibly updated) instance carries a truthy
parentInstanceId resolving to a registered parent component, the same event
and payload are processed on the parent instance recursively and the
parent's returned sends are appended to the (empty) local send list. -/
def processEventC : Nat → DSys → String → String → String → Obj → PEOut
  | 0, sys, _, _, _, _ =>
    { err? := some ("fuel exhausted"), sys := sys, sends := [], trace := [] }
  | fuel + 1, sys, cn, inst, ev, data =>
    match sys.getComp cn with
    | none => { err? := none, sys := sys, sends := [], trace := [] }
    | some comp =>
      match storeGet? comp.insts inst with
      | none => { err? := none, sys := sys, sends := [], trace := [] }
      | some instData =>
        match comp.getHandler ev with
        | none => { err? := none, sys := sys, sends := [], trace := [] }
        | some h =>
          match h inst data (some instData) with
          | .error msg =>
            { err? := some msg, sys := sys, sends := [], trace := [(cn, ev, inst)] }
          | .ok res =>
            match stepUpdate sys cn inst res.update? with
            | .error msg =>
              { err? := some msg, sys := sys, sends := [], trace := [(cn, ev, inst)] }
            | .ok sys1 =>
              if strTruthy comp.parentName && res.send?.isNone &&
                  shouldPropagateToParent ev then
                match comp.parentName with
                | none =>
                  { err? := none, sys := sys1, sends := res.send?.getD [],
                    trace := [(cn, ev, inst)] }
                | some pn =>
                  match sys1.getComp pn with
                  | none =>
                    { err? := none, sys := sys1, sends := res.send?.getD [],
                      trace := [(cn, ev, inst)] }
                  | some _ =>
                    match liveParentInstanceId sys1 cn inst with
                    | none =>
                      { err? := none, sys := sys1, sends := res.send?.getD [],
                        trace := [(cn, ev, inst)] }
                    | some pid =>
                      match processEventC fuel sys1 pn pid ev data with
                      | pout =>
                        match pout.err? with
                        | some msg =>
                          { err? := some msg, sys := pout.sys, sends := [],
                            trace := (cn, ev, inst) :: pout.trace }
                        | none =>
                          { err? := none, sys := pout.sys,
                            sends := res.send?.getD [] ++ pout.sends,
                            trace := (cn, ev, inst) :: pout.trace }
              else
                { err? := none, sys := sys1, sends := res.send?.getD [],
                  trace := [(cn, ev, inst)] }

/-- Handler of the propagation scenario: neither update nor send. -/
def c8ChildHandler : Handler := fun _ _ _ => .ok { update? := none, send? := none }

/-- Handler of the suppression scenario: explicit empty send list. -/
def c8SuppressHandler : Handler := fun _ _ _ => .ok { update? := none, send? := some [] }

/-- System of the parent-propagation scenarios: component child declares
component parent as its parent, and child_1 is linked to parent_1. -/
def c8Sys : DSys :=
  { comps :=
      [{ name := ("parent"), parentName := none,
         handlers := [(("test" : String), c8ChildHandler),
                      (("init" : String), c8ChildHandler)],
         insts := [(("parent_1" : String), [])] },
       { name := ("child"), parentName := some ("parent"),
         handlers := [(("test" : String), c8ChildHandler),
                      (("suppress" : String), c8SuppressHandler),
                      (("init" : String), c8ChildHandler)],
         insts := [(("child_1" : String),
           [(("parentInstanceId" : String), Value.vStr ("parent_1"))])] }],
    queue := [] }

/-- Relationship bookkeeping fields of an instance.  The relationship
operations (createInstance, setInstanceParent, determineSiblingIndex,
createInstanceInOrder) read and write only these four fields of the stored
record, so the embedding represents an instance by them; the remaining data
keys are untouched by and irrelevant to these operations. -/
structure RInst where
  parentInstanceId : Option String
  childInstanceIds : List String
  siblingInstanceIds : List String
  siblingIndex : Int
deriving DecidableEq

/-- A component of the relationship model: name and instance store in
insertion order (JS Map preserves insertion order). -/
structure RComp where
  name : String
  insts : List (String × RInst)
deriving DecidableEq

/-- The system of the relationship model: the component registry in
registration order. -/
structure RSys where
  comps : List RComp
deriving DecidableEq

/-- Component-name prefix of an instance id, as the code computes it:
`id.split("_")[0]`, the characters before the first underscore (the whole
id when it has none). -/
def prefixOf (id : String) : String :=
  (id.toList.takeWhile (fun c => c ≠ ('_' : Char))).asString

/-- Embeds `System.getComponent` on the relationship model. -/
def RSys.findComp (sys : RSys) (n : String) : Option RComp :=
  sys.comps.find? (fun c => c.name = n)

/-- Embeds `Component.getInstance` / `instances.get`. -/
def RComp.findInst (c : RComp) (id : String) : Option RInst :=
  (c.insts.find? (fun p => p.1 = id)).map (fun p => p.2)

/-- The instance stored at component `cn`, id `id`. -/
def RSys.instAt? (sys : RSys) (cn id : String) : Option RInst :=
  (sys.findComp cn).bind (fun c => c.findInst id)

/-- All instances in system iteration order: components in registration
order, each component's instances in insertion order — the order in which
`determineSiblingIndex` and the sibling-rebuild loops scan them. -/
def RSys.allInsts (sys : RSys) : List (String × RInst) :=
  sys.comps.flatMap (fun c => c.insts)

/-- All instance ids in system iteration order. -/
def RSys.allIds (sys : RSys) : List String :=
  sys.allInsts.map (fun p => p.1)

/-- Applies f to the instance stored at (component cn, id), leaving every
other record alone — the effect of mutating one live instance object. -/
def RSys.modifyInst (sys : RSys) (cn id : String) (f : RInst → RInst) : RSys :=
  ⟨sys.comps.map (fun c =>
    if c.name = cn then
      ⟨c.name, c.insts.map (fun p => if p.1 = id then (p.1, f p.2) else p)⟩
    else c)⟩

/-- `Map.set` on a component's store: overwrites the value in place if the
key exists (keeping its position), otherwise appends at the end. -/
def RComp.setInst (c : RComp) (id : String) (v : RInst) : RComp :=
  if c.insts.any (fun p => p.1 = id) then
    ⟨c.name, c.insts.map (fun p => if p.1 = id then (p.1, v) else p)⟩
  else ⟨c.name, c.insts ++ [(id, v)]⟩

/-- `Map.set` applied to the named component's store. -/
def RSys.setInstIn (sys : RSys) (cn id : String) (v : RInst) : RSys :=
  ⟨sys.comps.map (fun c => if c.name = cn then c.setInst id v else c)⟩

/-- The scanning loop of `Component.determineSiblingIndex` over the
flattened instance stores: return the running index at the first occurrence
of the target id, incrementing it for every sibling passed on the way. -/
def dsiAux : List (String × RInst) → String → List String → Int → Option Int
  | [], _, _, _ => none
  | p :: rest, target, sibs, idx =>
    if p.1 = target then some idx
    else if sibs.contains p.1 then dsiAux rest target sibs (idx + 1)
    else dsiAux rest target sibs idx

/-- Embeds `Component.determineSiblingIndex` (core-system.ts lines 149-163):
scan every component's instances in system order; if the target id is never
found, fall back to `siblings.length - 1`. -/
def RSys.determineSiblingIndex (sys : RSys) (instanceId : String)
    (siblings : List String) : Int :=
  match dsiAux sys.allInsts instanceId siblings 0 with
  | some i => i
  | none => (siblings.length : Int) - 1

/-- Appends `nid` to an instance's sibling list unless already present — the
`if (!list.includes(nid)) list.push(nid)` pattern of the source. -/
def pushOnce (nid : String) (i : RInst) : RInst :=
  if nid ∈ i.siblingInstanceIds then i
  else { i with siblingInstanceIds := i.siblingInstanceIds ++ [nid] }

/-- One iteration of the sibling back-pointer loop of `createInstance`
(lines 299-313): resolve the sibling's component from its id prefix; if the
component and instance exist, push the new id into its sibling list. -/
def pushStep (instanceId : String) (s : RSys) (sid : String) : RSys :=
  match s.findComp (prefixOf sid) with
  | none => s
  | some c =>
    match c.findInst sid with
    | none => s
    | some _ => s.modifyInst (prefixOf sid) sid (pushOnce instanceId)

/-- The sibling scan of `createInstance` (lines 271-284): every instance
other than the new one that shares the new instance's parent — or, when the
new instance's parent is falsy, is itself parentless by JS truthiness. -/
def createSiblings (sys1 : RSys) (instanceId : String)
    (dataParent : Option String) : List String :=
  ((sys1.allInsts.filter (fun p =>
      if p.1 = instanceId then false
      else if strTruthy dataParent then p.2.parentInstanceId == dataParent
      else !(strTruthy p.2.parentInstanceId))).map (fun p => p.1))

/-- The body of the hierarchical `Component.createInstance` after the
component has been resolved: store the instance, compute its sibling list
and index, and push the new id into every sibling's own list. -/
def createInstanceCore (sys : RSys) (componentId instanceId : String)
    (dataParent : Option String) (dataChildren : List String) : RSys :=
  let sys1 := sys.setInstIn componentId instanceId
    ⟨dataParent, dataChildren, [], 0⟩
  let siblings := createSiblings sys1 instanceId dataParent
  let sys2 := sys1.modifyInst componentId instanceId
    (fun i => { i with siblingInstanceIds := siblings })
  let idx := sys2.determineSiblingIndex instanceId siblings
  let sys3 := sys2.modifyInst componentId instanceId
    (fun i => { i with siblingIndex := idx })
  siblings.foldl (pushStep instanceId) sys3

/-- Embeds the hierarchical `Component.createInstance` (core-system.ts lines
252-314) on the relationship fields.  `dataParent` and `dataChildren` are
the `parentInstanceId`/`childInstanceIds` keys of the `data` argument; the
sibling fields of `data` are overwritten unconditionally by the code and are
therefore not parameters.  After storing the instance, all instances sharing
the same parent (or parentless, by JS truthiness) become its siblings, its
sibling index is computed by the global scan, and each sibling — resolved
through its id prefix — gets the new id pushed into its own list. -/
def RSys.createInstance (sys : RSys) (componentId instanceId : String)
    (dataParent : Option String) (dataChildren : List String) :
    Except String RSys :=
  match sys.findComp componentId with
  | none => .error ("Component " ++ componentId ++ " not found")
  | some _ =>
    .ok (createInstanceCore sys componentId instanceId dataParent dataChildren)

/-- One iteration of the sibling-rebuild loop of `setInstanceParent` (lines
206-248), threading the mutated system state; `pr` is the (component name,
instance id) pair being visited.  An instance that is the child itself or
has a different parent gets the child pruned from its sibling list and its
index recomputed; an instance under the new parent is appended to the
child's list (recomputing the child's index) and receives the child in its
own list (recomputing its index) unless already present. -/
def sipStep (childInstanceId parentInstanceId childComponentName : String)
    (s : RSys) (pr : String × String) : RSys :=
  match s.instAt? pr.1 pr.2 with
  | none => s
  | some inst =>
    if pr.2 = childInstanceId ∨ inst.parentInstanceId ≠ some parentInstanceId then
      let s1 := s.modifyInst pr.1 pr.2 (fun i =>
        { i with siblingInstanceIds :=
            i.siblingInstanceIds.filter (fun x => x ≠ childInstanceId) })
      match s1.instAt? pr.1 pr.2 with
      | none => s1
      | some i1 => s1.modifyInst pr.1 pr.2 (fun i =>
          { i with siblingIndex :=
              s1.determineSiblingIndex pr.2 i1.siblingInstanceIds })
    else
      let s1 := s.modifyInst childComponentName childInstanceId (fun i =>
        { i with siblingInstanceIds := i.siblingInstanceIds ++ [pr.2] })
      let cs := (((s1.instAt? childComponentName childInstanceId).map
          (fun i => i.siblingInstanceIds)).getD [])
      let s2 := s1.modifyInst childComponentName childInstanceId (fun i =>
        { i with siblingIndex := s1.determineSiblingIndex childInstanceId cs })
      if childInstanceId ∈ inst.siblingInstanceIds then s2
      else
        let s3 := s2.modifyInst pr.1 pr.2 (fun i =>
          { i with siblingInstanceIds := i.siblingInstanceIds ++ [childInstanceId] })
        let ns := (((s3.instAt? pr.1 pr.2).map (fun i => i.siblingInstanceIds)).getD [])
        s3.modifyInst pr.1 pr.2 (fun i =>
          { i with siblingIndex := s3.determineSiblingIndex pr.2 ns })

/-- The mutation body of `setInstanceParent` after child and parent have
been resolved: set the child's parent reference, extend the parent's child
list, clear the child's sibling list, then visit every instance with the
sibling-rebuild loop. -/
def sipCore (sys : RSys)
    (childInstanceId parentInstanceId childComponentName parentComponentName : String) :
    RSys :=
  let sys1 := sys.modifyInst childComponentName childInstanceId
    (fun i => { i with parentInstanceId := some parentInstanceId })
  let sys2 := sys1.modifyInst parentComponentName parentInstanceId
    (fun i =>
      if childInstanceId ∈ i.childInstanceIds then i
      else { i with childInstanceIds := i.childInstanceIds ++ [childInstanceId] })
  let sys3 := sys2.modifyInst childComponentName childInstanceId
    (fun i => { i with siblingInstanceIds := [] })
  let pairs := sys3.comps.flatMap (fun c => c.insts.map (fun p => (c.name, p.1)))
  pairs.foldl (sipStep childInstanceId parentInstanceId childComponentName) sys3

/-- Embeds `Component.setInstanceParent` (core-system.ts lines 165-249).
Child and parent are resolved by splitting their ids' component prefixes;
the child's parent reference is set, the parent's child list extended, the
child's sibling list cleared, and then every instance in the system is
visited by the sibling-rebuild loop. -/
def RSys.setInstanceParent (sys : RSys) (childInstanceId parentInstanceId : String) :
    Except String RSys :=
  let childComponentName := prefixOf childInstanceId
  match sys.findComp childComponentName with
  | none => .error ("Child component " ++ childComponentName ++ " not found")
  | some childComp =>
    match childComp.findInst childInstanceId with
    | none => .error ("Child instance " ++ childInstanceId ++ " not found")
    | some _ =>
      let parentComponentName := prefixOf parentInstanceId
      match sys.findComp parentComponentName with
      | none => .error ("Parent component " ++ parentComponentName ++ " not found")
      | some parentComp =>
        match parentComp.findInst parentInstanceId with
        | none => .error ("Parent instance " ++ parentInstanceId ++ " not found")
        | some _ =>
          .ok (sipCore sys childInstanceId parentInstanceId
            childComponentName parentComponentName)

/-- Embeds `Component.getInstanceCount`. -/
def RComp.getInstanceCount (c : RComp) : Nat := c.insts.length

/-- Embeds `Component.createInstanceInOrder` (core-system.ts lines 58-80);
`selfName` is the name of the component the method is invoked on.  The call
throws if the name is absent from the order, throws if any component listed
after it already has instances, and otherwise delegates to
`createInstance(this.name, instanceId, data)`. -/
def RSys.createInstanceInOrder (sys : RSys) (selfName instanceId : String)
    (dataParent : Option String) (dataChildren : List String)
    (order : List String) : Except String RSys :=
  match order.findIdx? (fun n => n = selfName) with
  | none => .error ("Component " ++ selfName ++ " not found in COMPONENT_ORDER")
  | some i =>
    match (order.drop (i + 1)).find? (fun n =>
        match sys.findComp n with
        | some c => c.getInstanceCount > 0
        | none => false) with
    | some n => .error ("Cannot create " ++ selfName ++ " instance after " ++ n ++
        " instances have been created")
    | none => sys.createInstance selfName instanceId dataParent dataChildren

/-- A fresh System: the constructor registers the global "system" component. -/
def RSys.init : RSys := ⟨[⟨("system"), []⟩]⟩

/-- Embeds `System.createComponent` on the relationship model (the registry
map stores components in creation order; re-creating a name replaces the
component in place with a fresh empty one). -/
def RSys.createComponent (sys : RSys) (name : String) : RSys :=
  if sys.comps.any (fun c => c.name = name) then
    ⟨sys.comps.map (fun c => if c.name = name then ⟨name, []⟩ else c)⟩
  else ⟨sys.comps ++ [⟨name, []⟩]⟩

/-- Sibling symmetry, the invariant of the claim: if instance A lists B in
siblingInstanceIds and B is an instance, then B lists A and both carry the
same parentInstanceId (or both none). -/
def RSys.SibSym (sys : RSys) : Prop :=
  ∀ cA ∈ sys.comps, ∀ cB ∈ sys.comps,
    ∀ a ∈ cA.insts, ∀ b ∈ cB.insts,
      b.1 ∈ a.2.siblingInstanceIds →
      a.1 ∈ b.2.siblingInstanceIds ∧ a.2.parentInstanceId = b.2.parentInstanceId

/-- Well-formedness of the id convention the relationship code relies on:
component names are unique, and every instance id is nonempty, unique within
its store, and carries its owning component's name as its underscore
prefix (so that resolving an id through `prefixOf` finds its instance). -/
def RSys.WF (sys : RSys) : Prop :=
  (sys.comps.map (fun c => c.name)).Nodup ∧
  ∀ c ∈ sys.comps, (c.insts.map (fun p => p.1)).Nodup ∧
    ∀ p ∈ c.insts, prefixOf p.1 = c.name ∧ p.1 ≠ ("")

/-- No instance stores the empty string as its parent reference (JS
truthiness would treat such a parent as absent). -/
def RSys.NoEmptyParent (sys : RSys) : Prop :=
  ∀ c ∈ sys.comps, ∀ p ∈ c.insts, p.2.parentInstanceId ≠ some ("")

/-- Every sibling reference names an existing instance. -/
def RSys.NoDangling (sys : RSys) : Prop :=
  ∀ c ∈ sys.comps, ∀ p ∈ c.insts,
    ∀ s ∈ p.2.siblingInstanceIds, s ∈ sys.allIds

/-- The inductive invariant the amended sibling-symmetry claim preserves. -/
def RSys.InvGood (sys : RSys) : Prop :=
  sys.WF ∧ sys.NoEmptyParent ∧ sys.NoDangling ∧ sys.SibSym

instance (sys : RSys) : Decidable sys.SibSym := by
  unfold RSys.SibSym; infer_instance

instance (sys : RSys) : Decidable sys.WF := by
  unfold RSys.WF; infer_instance

instance (sys : RSys) : Decidable sys.NoEmptyParent := by
  unfold RSys.NoEmptyParent; infer_instance

instance (sys : RSys) : Decidable sys.NoDangling := by
  unfold RSys.NoDangling; infer_instance

instance (sys : RSys) : Decidable sys.InvGood := by
  unfold RSys.InvGood; infer_instance

/-- System registering components parent and child, no instances yet. -/
def c5Sys : RSys := (RSys.init.createComponent ("parent")).createComponent ("child")

/-- The creation order of the ordered-creation scenario. -/
def c5Order : List String := [("system"), ("parent"), ("child")]

/-- The ordered-creation scenario call creating child first. -/
def c5ChildFirst : Except String RSys :=
  c5Sys.createInstanceInOrder ("child") ("child_1") none [] c5Order

/-- The scenario call creating parent after a child instance exists. -/
def c5ParentAfterChild : Except String RSys :=
  match c5ChildFirst with
  | .ok s => s.createInstanceInOrder ("parent") ("parent_1") none [] c5Order
  | .error e => .error e

/-- The scenario calls creating parent first, then child. -/
def c5ParentFirst : Except String RSys :=
  c5Sys.createInstanceInOrder ("parent") ("parent_1") none [] c5Order

/-- Child created after the parent instance. -/
def c5ThenChild : Except String RSys :=
  match c5ParentFirst with
  | .ok s => s.createInstanceInOrder ("child") ("child_1") none [] c5Order
  | .error e => .error e

/-- System with component person, holding an instance whose id "alice" does
not carry the component prefix the relationship code resolves ids by. -/
def c6BadPrefixStep1 : Except String RSys :=
  (RSys.init.createComponent ("person")).createInstance ("person") ("alice") none []

/-- Second creation over the alice store: a conventional id person_1. -/
def c6BadPrefixStep2 : Except String RSys :=
  match c6BadPrefixStep1 with
  | .ok s => s.createInstance ("person") ("person_1") none []
  | .error e => .error e

/-- Overwrite scenario: person_1 and person_2 created as mutual siblings. -/
def c6OverwriteStep2 : Except String RSys :=
  match (RSys.init.createComponent ("person")).createInstance
      ("person") ("person_1") none [] with
  | .ok s => s.createInstance ("person") ("person_2") none []
  | .error e => .error e

/-- Overwrite scenario: person_1 created again with a parent reference. -/
def c6OverwriteStep3 : Except String RSys :=
  match c6OverwriteStep2 with
  | .ok s => s.createInstance ("person") ("person_1") (some ("person_2")) []
  | .error e => .error e

/-- The sys of an Except-valued scenario, for closed statements. -/
def exceptSys (e : Except String RSys) : RSys := e.toOption.getD RSys.init

deriving instance DecidableEq for Except

/-- Relink scenario: parent_1 with linked children childa_1 and childb_1,
and a parentless childc_1. -/
def c6RelinkBase : Except String RSys :=
  match ((((RSys.init.createComponent ("parent")).createComponent
      ("childa")).createComponent ("childb")).createComponent
      ("childc")).createInstance ("parent") ("parent_1") none [] with
  | .ok s1 =>
    match s1.createInstance ("childa") ("childa_1") (some ("parent_1")) [] with
    | .ok s2 =>
      match s2.createInstance ("childb") ("childb_1") (some ("parent_1")) [] with
      | .ok s3 => s3.createInstance ("childc") ("childc_1") none []
      | .error e => .error e
    | .error e => .error e
  | .error e => .error e

/-- Relink scenario: childc_1 attached under parent_1. -/
def c6Relinked : Except String RSys :=
  match c6RelinkBase with
  | .ok s => s.setInstanceParent ("childc_1") ("parent_1")
  | .error e => .error e

/-- Cross-component scenario: components a and b; instance b_1 attached
first, then a_1, both parentless, so they form one sibling group whose
attachment order is [b_1, a_1]. -/
def c7CrossStep1 : Except String RSys :=
  ((RSys.init.createComponent ("a")).createComponent ("b")).createInstance
    ("b") ("b_1") none []

/-- Cross-component scenario after creating a_1. -/
def c7CrossStep2 : Except String RSys :=
  match c7CrossStep1 with
  | .ok s => s.createInstance ("a") ("a_1") none []
  | .error e => .error e

/-- Single-component scenario: three parentless instances of component p in
attachment order p_1, p_2, p_3. -/
def c7SameComp : Except String RSys :=
  match ((RSys.init.createComponent ("p")).createInstance ("p") ("p_1") none []) with
  | .ok s1 =>
    match s1.createInstance ("p") ("p_2") none [] with
    | .ok s2 => s2.createInstance ("p") ("p_3") none []
    | .error e => .error e
  | .error e => .error e

/-- The relationship fields (parent reference and sibling list) of an
instance record — the projection the sibling-symmetry invariant speaks
about. -/
def relF (i : RInst) : Option String × List String :=
  (i.parentInstanceId, i.siblingInstanceIds)

/-- The (component name, instance id) pairs of every stored slot, in system
iteration order — the list the rebuild loop of `setInstanceParent` walks. -/
def pairsOf (sys : RSys) : List (String × String) :=
  sys.comps.flatMap (fun c => c.insts.map (fun p => (c.name, p.1)))

/-- The slot test of the rebuild loop's append branch: a slot other than the
child whose stored parent reference (in the pre-loop state `t`) is the new
parent. -/
def sibCohortPred (t : RSys) (childId parentId : String)
    (pr : String × String) : Bool :=
  (pr.2 != childId) &&
    (((t.instAt? pr.1 pr.2).map (fun i => i.parentInstanceId)) ==
      some (some parentId))

/-- The ids the rebuild loop has appended to the child's sibling list after
walking the slots `prs`. -/
def sibCohort (t : RSys) (childId parentId : String)
    (prs : List (String × String)) : List String :=
  (prs.filter (sibCohortPred t childId parentId)).map (fun pr => pr.2)

/-- The final sibling list of a non-child slot after the rebuild loop, as a
function of its pre-loop record. -/
def sipFinalSibs (childId parentId : String) (tv : RInst) : List String :=
  if tv.parentInstanceId = some parentId then
    (if childId ∈ tv.siblingInstanceIds then tv.siblingInstanceIds
     else tv.siblingInstanceIds ++ [childId])
  else tv.siblingInstanceIds.filter (fun x => x ≠ childId)

/-- Invariant of the rebuild loop of `setInstanceParent` after the slots
`done` have been visited, over the pre-loop state `t`: the child slot holds
the new parent and the appended cohort so far; every visited non-child slot
holds its final sibling list; every unvisited slot is untouched. -/
def sipInv (X P CC : String) (t : RSys) (done : List (String × String))
    (s : RSys) : Prop :=
  ((s.instAt? CC X).map relF = some (some P, sibCohort t X P done)) ∧
  (∀ pr ∈ done, pr ≠ (CC, X) → ∀ tv, t.instAt? pr.1 pr.2 = some tv →
    (s.instAt? pr.1 pr.2).map relF =
      some (tv.parentInstanceId, sipFinalSibs X P tv)) ∧
  (∀ cn id, ¬(cn = CC ∧ id = X) → (cn, id) ∉ done →
    (s.instAt? cn id).map relF = (t.instAt? cn id).map relF)

theorem getKey?_setKey (m : Obj) (k k' : String) (v : Value) :
    getKey? (setKey m k v) k' = if k' = k then some v else getKey? m k' := by
  induction m with
  | nil =>
    by_cases h : k' = k
    · subst h; simp [setKey, getKey?, List.find?]
    · have h2 : ¬ (k = k') := fun hh => h hh.symm
      simp [setKey, getKey?, List.find?, h, h2]
  | cons p rest ih =>
    by_cases h1 : p.1 = k
    · by_cases h2 : k' = k
      · subst h2
        simp [setKey, if_pos h1, getKey?, List.find?, h1]
      · have hp : ¬ (p.1 = k') := fun hh => h2 (hh ▸ h1.symm ▸ rfl)
        simp [setKey, if_pos h1, getKey?, List.find?, hp, h2]
    · simp only [setKey, if_neg h1]
      by_cases h2 : p.1 = k'
      · have hk : ¬ (k' = k) := fun hh => h1 (h2.symm ▸ hh ▸ rfl)
        simp [getKey?, List.find?, h2, if_neg hk]
      · simp only [getKey?, List.find?] at ih ⊢
        simp only [show (decide (p.1 = k') = false) by simp [h2]]
        exact ih

/-- Looking a key up after an `Object.assign` merge: keys of the update win,
keys not mentioned keep the stored value.  The update's keys must be unique,
which every JS object literal guarantees. -/
theorem getKey?_objAssign (stored update : Obj) (k : String)
    (hnd : (update.map Prod.fst).Nodup) :
    getKey? (objAssign stored update) k =
      match getKey? update k with
      | some v => some v
      | none => getKey? stored k := by
  induction update generalizing stored with
  | nil => simp [objAssign, getKey?]
  | cons kv rest ih =>
    simp only [List.map_cons, List.nodup_cons] at hnd
    simp only [objAssign, List.foldl_cons]
    have hrec := ih (setKey stored kv.1 kv.2) hnd.2
    simp only [objAssign] at hrec
    rw [hrec]
    by_cases hk : k = kv.1
    · subst hk
      have hu : getKey? rest kv.1 = none := by
        unfold getKey?
        rw [List.find?_eq_none.mpr]
        · rfl
        · intro p hp hdec
          have hpk : p.1 = kv.1 := of_decide_eq_true hdec
          exact absurd (hpk ▸ List.mem_map_of_mem Prod.fst hp) hnd.1
      have hc : getKey? (kv :: rest) kv.1 = some kv.2 := by
        simp [getKey?, List.find?]
      rw [hu, hc, getKey?_setKey, if_pos rfl]
    · have hc : getKey? (kv :: rest) k = getKey? rest k := by
        simp [getKey?, List.find?, show ¬ (kv.1 = k) from fun hh => hk hh.symm]
      rw [getKey?_setKey, if_neg hk, hc]

/-- Rewriting the record stored at one id (the in-place mutation performed by
`Object.assign(instance, update)`) changes only that id's record. -/
theorem storeGet?_overwrite (insts : List (String × Obj)) (id id' : String)
    (g : Obj → Obj) :
    storeGet? (insts.map (fun p => if p.1 = id then (p.1, g p.2) else p)) id' =
      if id' = id then (storeGet? insts id).map g else storeGet? insts id' := by
  induction insts with
  | nil => by_cases h : id' = id <;> simp [storeGet?, h]
  | cons p rest ih =>
    simp only [List.map_cons]
    by_cases h1 : p.1 = id
    · by_cases h2 : id' = id
      · subst h2
        simp [storeGet?, List.find?, h1]
      · have hp : decide (p.1 = id') = false := by
          simp only [decide_eq_false_iff_not]
          exact fun hh => h2 (hh ▸ h1.symm ▸ rfl)
        simp only [storeGet?, List.find?, if_pos h1, hp]
        rw [if_neg h2]
        have h3 := ih
        simp only [storeGet?, if_neg h2] at h3
        exact h3
    · have hd : decide (p.1 = id) = false := by simp [h1]
      simp only [storeGet?, List.find?, if_neg h1, hd]
      by_cases h2 : p.1 = id'
      · have hk : ¬ (id' = id) := fun hh => h1 (h2.symm ▸ hh ▸ rfl)
        simp [h2, if_neg hk]
      · have hd2 : decide (p.1 = id') = false := by simp [h2]
        simp only [hd2]
        by_cases h3 : id' = id
        · subst h3
          have h4 := ih
          simp only [storeGet?, if_pos rfl, List.find?, hd] at h4 ⊢
          exact h4
        · rw [if_neg h3]
          have h4 := ih
          simp only [storeGet?, if_neg h3] at h4
          exact h4

/-- C2: `updateInstance` is a shallow merge.  Every key of the update
overwrites the stored value at that key — nested objects are replaced
wholesale — and every key not mentioned keeps its previous value; updating
only `age` in the Alice record leaves the other three fields unchanged, and
updating `stats:{strength:15}` over `stats:{strength:10,speed:10}` leaves
`stats` exactly `{strength:15}`. -/
theorem update_shallow_merge :
    (∀ (insts : List (String × Obj)) (id : String) (stored update : Obj),
      storeGet? insts id = some stored →
      (update.map Prod.fst).Nodup →
      ∃ insts', updateInstanceData insts id update = .ok insts' ∧
        storeGet? insts' id = some (objAssign stored update) ∧
        ∀ k, getKey? (objAssign stored update) k =
          (match getKey? update k with
           | some v => some v
           | none => getKey? stored k)) ∧
    (updateInstanceData aliceStore ("person_1") ([(("age" : String), Value.vInt 30)]) =
      .ok [(("person_1" : String),
        [(("name" : String), Value.vStr ("Alice")),
         (("age" : String), Value.vInt 30),
         (("isHungry" : String), Value.vBool false),
         (("movementMethod" : String), Value.vStr ("walking"))])]) ∧
    (updateInstanceData statsStore ("person_1")
        ([(("stats" : String), Value.vObj [(("strength" : String), Value.vInt 15)])]) =
      .ok [(("person_1" : String),
        [(("stats" : String),
          Value.vObj [(("strength" : String), Value.vInt 15)])])]) := by
  refine ⟨?_, rfl, rfl⟩
  intro insts id stored update hget hnd
  have hfind : ∃ p, insts.find? (fun p => p.1 = id) = some p ∧ p.2 = stored := by
    unfold storeGet? at hget
    cases hf : insts.find? (fun p => p.1 = id) with
    | none => rw [hf] at hget; simp at hget
    | some p =>
      rw [hf] at hget
      exact ⟨p, rfl, by simpa using hget⟩
  obtain ⟨p, hp, hps⟩ := hfind
  refine ⟨insts.map (fun q => if q.1 = id then (q.1, objAssign q.2 update) else q),
    ?_, ?_, ?_⟩
  · unfold updateInstanceData
    rw [hp]
  · rw [storeGet?_overwrite insts id id (fun o => objAssign o update), if_pos rfl,
      hget]
    simp
  · intro k
    exact getKey?_objAssign stored update k hnd

/-- Witness for C2 at the Alice store. -/
theorem update_shallow_merge_witness :
    ∃ insts', updateInstanceData aliceStore ("person_1")
        ([(("age" : String), Value.vInt 30)]) = .ok insts' ∧
      storeGet? insts' ("person_1") =
        some (objAssign
          [(("name" : String), Value.vStr ("Alice")),
           (("age" : String), Value.vInt 20),
           (("isHungry" : String), Value.vBool false),
           (("movementMethod" : String), Value.vStr ("walking"))]
          [(("age" : String), Value.vInt 30)]) ∧
      ∀ k, getKey? (objAssign
          [(("name" : String), Value.vStr ("Alice")),
           (("age" : String), Value.vInt 20),
           (("isHungry" : String), Value.vBool false),
           (("movementMethod" : String), Value.vStr ("walking"))]
          [(("age" : String), Value.vInt 30)]) k =
        (match getKey? [(("age" : String), Value.vInt 30)] k with
         | some v => some v
         | none => getKey?
            [(("name" : String), Value.vStr ("Alice")),
             (("age" : String), Value.vInt 20),
             (("isHungry" : String), Value.vBool false),
             (("movementMethod" : String), Value.vStr ("walking"))] k) :=
  update_shallow_merge.1 aliceStore ("person_1") _ _ rfl (by decide)

/-- C1: events are processed in strict FIFO order.  Each drain iteration
removes the head of the queue and appends every send produced while
processing it at the tail, after all events that were already queued; with
H1 sending E2, H2 sending E3, H3 terminal, queueing E1 and draining invokes
the handlers in order [H1, H2, H3], each exactly once. -/
theorem fifo_ordering :
    (∀ (sys : DSys) (e : QEvent) (rest : List QEvent),
      sys.queue = e :: rest →
      ∃ appended, (processOne sys).2.queue = rest ++ appended) ∧
    ((drain 10 fifoStart).1 =
      [(("person" : String), ("EVENT_1_OCCURRED" : String), ("person_1" : String)),
       (("person" : String), ("EVENT_2_OCCURRED" : String), ("person_1" : String)),
       (("person" : String), ("EVENT_3_OCCURRED" : String), ("person_1" : String))] ∧
     (drain 10 fifoStart).2.1 = DrainStatus.drained) := by
  constructor
  · intro sys e rest hq
    unfold processOne
    rw [hq]
    cases hc : sys.getComp e.component with
    | none => exact ⟨[], by simp [hc]⟩
    | some comp =>
      cases hh : comp.getHandler e.event with
      | none => exact ⟨[], by simp [hc, hh]⟩
      | some h =>
        cases hr : h e.instanceId e.data (storeGet? comp.insts e.instanceId) with
        | error msg => exact ⟨[], by simp [hc, hh, hr]⟩
        | ok res =>
          cases hu : res.update? with
          | some u =>
            cases hi : storeGet? comp.insts e.instanceId with
            | none => exact ⟨[], by rw [hi] at hr; simp [hc, hh, hi, hr, hu]⟩
            | some d =>
              cases hud : updateInstanceData comp.insts e.instanceId u with
              | error msg =>
                exact ⟨[], by rw [hi] at hr; simp [hc, hh, hi, hr, hu, hud]⟩
              | ok insts' =>
                cases hs : res.send? with
                | none =>
                  exact ⟨[], by
                    rw [hi] at hr
                    simp [hc, hh, hi, hr, hu, hud, hs, DSys.setCompInsts]⟩
                | some sends =>
                  exact ⟨sends.map (resolveSend e), by
                    rw [hi] at hr
                    simp [hc, hh, hi, hr, hu, hud, hs, DSys.setCompInsts]⟩
          | none =>
            cases hs : res.send? with
            | none => exact ⟨[], by simp [hc, hh, hr, hu, hs]⟩
            | some sends =>
              exact ⟨sends.map (resolveSend e), by simp [hc, hh, hr, hu, hs]⟩
  · exact ⟨rfl, rfl⟩

/-- Witness for C1 at the FIFO scenario start state. -/
theorem fifo_ordering_witness :
    ∃ appended, (processOne fifoStart).2.queue = [] ++ appended :=
  fifo_ordering.1 fifoStart fifoE1 [] rfl

/-- C3: structural lookup failures are non-fatal.  A popped event naming an
unregistered component, an event with no registered handler, or an update
targeting a missing instance is logged and dropped; the step does not throw,
every instance store is left unchanged, and processing continues with the
next queue item. -/
theorem lookup_failures_nonfatal :
    (∀ (sys : DSys) (e : QEvent) (rest : List QEvent),
      sys.queue = e :: rest →
      sys.getComp e.component = none →
      processOne sys = (.ok none, { sys with queue := rest })) ∧
    (∀ (sys : DSys) (e : QEvent) (rest : List QEvent) (comp : DComp),
      sys.queue = e :: rest →
      sys.getComp e.component = some comp →
      comp.getHandler e.event = none →
      processOne sys = (.ok none, { sys with queue := rest })) ∧
    (∀ (sys : DSys) (e : QEvent) (rest : List QEvent) (comp : DComp)
        (h : Handler) (res : HandlerResult) (u : Obj),
      sys.queue = e :: rest →
      sys.getComp e.component = some comp →
      comp.getHandler e.event = some h →
      h e.instanceId e.data (storeGet? comp.insts e.instanceId) = .ok res →
      res.update? = some u →
      storeGet? comp.insts e.instanceId = none →
      processOne sys =
        (.ok (some (e.component, e.event, e.instanceId)), { sys with queue := rest })) := by
  refine ⟨?_, ?_, ?_⟩
  · intro sys e rest hq hc
    unfold processOne
    rw [hq]
    simp only [hc]
  · intro sys e rest comp hq hc hh
    unfold processOne
    rw [hq]
    simp only [hc, hh]
  · intro sys e rest comp h res u hq hc hh hr hu hi
    unfold processOne
    rw [hq]
    rw [hi] at hr
    simp only [hc, hh, hi, hr, hu]

/-- Witness for C3: the three structural-failure scenarios evaluated. -/
theorem lookup_failures_nonfatal_witness :
    processOne c3SysA = (.ok none, { c3SysA with queue := [] }) ∧
    processOne c3SysB = (.ok none, { c3SysB with queue := [] }) ∧
    processOne c3SysC =
      (.ok (some (("person" : String), ("FELT_HUNGER" : String), ("nonexistent" : String))),
       { c3SysC with queue := [] }) :=
  ⟨lookup_failures_nonfatal.1 c3SysA c3eGhost [] rfl rfl,
   lookup_failures_nonfatal.2.1 c3SysB c3eNoHandler [] _ rfl rfl rfl,
   lookup_failures_nonfatal.2.2 c3SysC c3eNoInst [] _ c3Handler _ _ rfl rfl rfl rfl rfl rfl⟩

/-- C4: a handler exception propagates out of processEvents.  When the head
event's handler throws, the drain stops at once with that error: only that
handler was invoked, no update is applied, and the events queued after the
failing one remain in the queue; concretely, with queue [EVENT_A,
ERROR_OCCURRED, EVENT_C] the drain processes EVENT_A, throws on
ERROR_OCCURRED, and leaves EVENT_C queued. -/
theorem handler_throw_propagates :
    (∀ (sys : DSys) (e : QEvent) (rest : List QEvent) (comp : DComp)
        (h : Handler) (msg : String) (fuel : Nat),
      sys.queue = e :: rest →
      sys.getComp e.component = some comp →
      comp.getHandler e.event = some h →
      h e.instanceId e.data (storeGet? comp.insts e.instanceId) = .error msg →
      drain (fuel + 1) sys =
        ([(e.component, e.event, e.instanceId)], .threw msg, { sys with queue := rest })) ∧
    ((drain 10 c4Sys).1 =
      [(("person" : String), ("EVENT_A" : String), ("person_1" : String)),
       (("person" : String), ("ERROR_OCCURRED" : String), ("person_1" : String))] ∧
     (drain 10 c4Sys).2.1 = DrainStatus.threw ("Test error") ∧
     (drain 10 c4Sys).2.2.queue = [c4e3]) := by
  constructor
  · intro sys e rest comp h msg fuel hq hc hh hr
    have hstep : processOne sys =
        (.threw (e.component, e.event, e.instanceId) msg, { sys with queue := rest }) := by
      unfold processOne
      rw [hq]
      simp only [hc, hh, hr]
    unfold drain
    rw [hstep]
  · exact ⟨rfl, rfl, rfl⟩

/-- Witness for C4 with the throwing event at the head of the queue. -/
theorem handler_throw_propagates_witness :
    drain 1 c4ThrowNow =
      ([(("person" : String), ("ERROR_OCCURRED" : String), ("person_1" : String))],
       .threw ("Test error"), { c4ThrowNow with queue := [c4e3] }) :=
  handler_throw_propagates.1 c4ThrowNow c4e2 [c4e3] _ throwHandler ("Test error") 0
    rfl rfl rfl rfl

/-- C9: target resolution for handler-returned sends.  Each queued entry
takes the send's component when present, else the component just processed;
its instance id is the payload's instanceId value when the payload carries
that key, else the instance id just processed; the event name and data are
queued unchanged. -/
theorem send_target_resolution :
    ∀ (sys : DSys) (e : QEvent) (rest : List QEvent) (comp : DComp)
      (h : Handler) (res : HandlerResult) (sends : List SendEntry),
      sys.queue = e :: rest →
      sys.getComp e.component = some comp →
      comp.getHandler e.event = some h →
      h e.instanceId e.data (storeGet? comp.insts e.instanceId) = .ok res →
      res.send? = some sends →
      (res.update? = none ∨ (storeGet? comp.insts e.instanceId).isSome) →
      (processOne sys).2.queue = rest ++ (sends.map (fun en =>
        ({ component := (match en.component? with | some c => c | none => e.component),
           instanceId := (match getKey? en.data ("instanceId") with
                          | some v => v.asString
                          | none => e.instanceId),
           event := en.event,
           data := en.data } : QEvent))) := by
  intro sys e rest comp h res sends hq hc hh hr hs hup
  have hfun : resolveSend e = (fun en : SendEntry =>
      ({ component := (match en.component? with | some c => c | none => e.component),
         instanceId := (match getKey? en.data ("instanceId") with
                        | some v => v.asString
                        | none => e.instanceId),
         event := en.event,
         data := en.data } : QEvent)) := by
    funext en
    cases hco : en.component? <;> simp [resolveSend, hco, Option.getD]
  rw [← hfun]
  cases hu : res.update? with
  | none =>
    unfold processOne
    rw [hq]
    simp only [hc, hh, hr, hu, hs]
  | some u =>
    have hsome : (storeGet? comp.insts e.instanceId).isSome := by
      cases hup with
      | inl hn => rw [hu] at hn; cases hn
      | inr hh2 => exact hh2
    obtain ⟨d, hd⟩ := Option.isSome_iff_exists.mp hsome
    have hfind : ∃ p, comp.insts.find? (fun q => q.1 = e.instanceId) = some p := by
      unfold storeGet? at hd
      cases hf : comp.insts.find? (fun q => q.1 = e.instanceId) with
      | none => rw [hf] at hd; cases hd
      | some p => exact ⟨p, rfl⟩
    obtain ⟨p, hp⟩ := hfind
    have hud : updateInstanceData comp.insts e.instanceId u =
        .ok (comp.insts.map (fun q =>
          if q.1 = e.instanceId then (q.1, objAssign q.2 u) else q)) := by
      unfold updateInstanceData
      rw [hp]
    rw [hd] at hr
    unfold processOne
    rw [hq]
    simp only [hc, hh, hd, hr, hu, hud, hs]
    simp [DSys.setCompInsts]

/-- Witness for C9: both resolution modes exercised at once. -/
theorem send_target_resolution_witness :
    (processOne c9Sys).2.queue = [] ++
      ([({ component? := some ("fridge"), event := ("FRIDGE_OPENED"),
           data := [(("instanceId" : String), Value.vStr ("fridge_1"))] } : SendEntry),
        ({ component? := none, event := ("STARTED_MOVING"), data := [] } : SendEntry)].map
        (fun en =>
          ({ component := (match en.component? with | some c => c | none => c9e.component),
             instanceId := (match getKey? en.data ("instanceId") with
                            | some v => v.asString
                            | none => c9e.instanceId),
             event := en.event,
             data := en.data } : QEvent))) :=
  send_target_resolution c9Sys c9e [] _ c9Handler _ _ rfl rfl rfl rfl rfl (Or.inl rfl)

/-- C8: default parent propagation.  When the handler's result leaves `send`
undefined, the component declares a (truthy) parent, the event is
propagation-eligible, and the updated instance carries a truthy
parentInstanceId resolving to a registered parent component, the same event
and payload are processed on the linked parent instance recursively, the
local invocation preceding the parent's trace; an explicit empty `send: []`
suppresses the propagation entirely. -/
theorem parent_propagation_default :
    (∀ (fuel : Nat) (sys sys1 psys : DSys) (cn inst ev : String) (data : Obj)
        (comp : DComp) (instData : Obj) (h : Handler) (res : HandlerResult)
        (pn pid : String) (psends : List SendEntry) (ptrace : List TraceEntry),
      sys.getComp cn = some comp →
      storeGet? comp.insts inst = some instData →
      comp.getHandler ev = some h →
      h inst data (some instData) = .ok res →
      res.send? = none →
      stepUpdate sys cn inst res.update? = .ok sys1 →
      comp.parentName = some pn →
      pn ≠ "" →
      shouldPropagateToParent ev = true →
      (sys1.getComp pn).isSome →
      liveParentInstanceId sys1 cn inst = some pid →
      processEventC fuel sys1 pn pid ev data =
        { err? := none, sys := psys, sends := psends, trace := ptrace } →
      processEventC (fuel + 1) sys cn inst ev data =
        { err? := none, sys := psys, sends := psends,
          trace := (cn, ev, inst) :: ptrace }) ∧
    (∀ (fuel : Nat) (sys sys1 : DSys) (cn inst ev : String) (data : Obj)
        (comp : DComp) (instData : Obj) (h : Handler) (res : HandlerResult)
        (pn pid : String),
      sys.getComp cn = some comp →
      storeGet? comp.insts inst = some instData →
      comp.getHandler ev = some h →
      h inst data (some instData) = .ok res →
      res.send? = some [] →
      stepUpdate sys cn inst res.update? = .ok sys1 →
      comp.parentName = some pn →
      pn ≠ "" →
      shouldPropagateToParent ev = true →
      (sys1.getComp pn).isSome →
      liveParentInstanceId sys1 cn inst = some pid →
      processEventC (fuel + 1) sys cn inst ev data =
        { err? := none, sys := sys1, sends := [], trace := [(cn, ev, inst)] }) := by
  constructor
  · intro fuel sys sys1 psys cn inst ev data comp instData h res pn pid psends
      ptrace hc hinst hh hr hs hupd hp hpn hsp hpc hlive hrec
    obtain ⟨pc, hpc'⟩ := Option.isSome_iff_exists.mp hpc
    have hst : strTruthy (some pn) = true := by
      simp [strTruthy]
      exact hpn
    unfold processEventC
    simp only [hc, hinst, hh, hr, hupd, hp, hs, hsp, hst, hpc', hlive, hrec,
      Option.isNone_none, Bool.and_true, Bool.true_and, if_pos]
    simp
  · intro fuel sys sys1 cn inst ev data comp instData h res pn pid
      hc hinst hh hr hs hupd hp hpn hsp hpc hlive
    unfold processEventC
    simp only [hc, hinst, hh, hr, hupd, hp, hs]
    simp

/-- Witness for C8: both the propagation and the suppression scenario on the
concrete parent/child system. -/
theorem parent_propagation_default_witness :
    (processEventC 2 c8Sys ("child") ("child_1") ("test") [] =
      { err? := none, sys := c8Sys, sends := [],
        trace := [(("child" : String), ("test" : String), ("child_1" : String)),
                  (("parent" : String), ("test" : String), ("parent_1" : String))] }) ∧
    (processEventC 2 c8Sys ("child") ("child_1") ("suppress") [] =
      { err? := none, sys := c8Sys, sends := [],
        trace := [(("child" : String), ("suppress" : String), ("child_1" : String))] }) :=
  ⟨parent_propagation_default.1 1 c8Sys c8Sys c8Sys ("child") ("child_1") ("test") []
      _ _ c8ChildHandler _ ("parent") ("parent_1") [] _
      rfl rfl rfl rfl rfl rfl rfl (by decide) rfl rfl rfl rfl,
   parent_propagation_default.2 1 c8Sys c8Sys ("child") ("child_1") ("suppress") []
      _ _ c8SuppressHandler _ ("parent") ("parent_1")
      rfl rfl rfl rfl rfl rfl rfl (by decide) rfl rfl rfl⟩

/-- C10: the events init, destroy, update and childUpdate are exactly the
non-propagating ones; for them the hierarchical processEvent never forwards
to the parent even when the handler leaves `send` undefined and the
component declares a parent, while every other event name is
propagation-eligible. -/
theorem nonpropagating_events :
    (∀ ev, shouldPropagateToParent ev = false ↔
      (ev = ("init") ∨ ev = ("destroy") ∨ ev = ("update") ∨ ev = ("childUpdate"))) ∧
    (∀ (fuel : Nat) (sys sys1 : DSys) (cn inst ev : String) (data : Obj)
        (comp : DComp) (instData : Obj) (h : Handler) (res : HandlerResult)
        (pn : String),
      sys.getComp cn = some comp →
      storeGet? comp.insts inst = some instData →
      comp.getHandler ev = some h →
      h inst data (some instData) = .ok res →
      res.send? = none →
      stepUpdate sys cn inst res.update? = .ok sys1 →
      comp.parentName = some pn →
      shouldPropagateToParent ev = false →
      processEventC (fuel + 1) sys cn inst ev data =
        { err? := none, sys := sys1, sends := [], trace := [(cn, ev, inst)] }) := by
  constructor
  · intro ev
    simp only [shouldPropagateToParent, nonPropagatingEvents]
    constructor
    · intro h
      by_cases h1 : ev = ("init")
      · exact Or.inl h1
      · by_cases h2 : ev = ("destroy")
        · exact Or.inr (Or.inl h2)
        · by_cases h3 : ev = ("update")
          · exact Or.inr (Or.inr (Or.inl h3))
          · by_cases h4 : ev = ("childUpdate")
            · exact Or.inr (Or.inr (Or.inr h4))
            · exfalso
              simp [h1, h2, h3, h4] at h
    · intro h
      rcases h with h | h | h | h <;> subst h <;> rfl
  · intro fuel sys sys1 cn inst ev data comp instData h res pn
      hc hinst hh hr hs hupd hp hsp
    unfold processEventC
    simp only [hc, hinst, hh, hr, hupd, hp, hs, hsp]
    simp

/-- Witness for C10: the init event on the linked child instance is handled
locally only, and init is recognised as non-propagating. -/
theorem nonpropagating_events_witness :
    (shouldPropagateToParent ("init") = false ↔
      (("init" : String) = ("init") ∨ ("init" : String) = ("destroy") ∨
       ("init" : String) = ("update") ∨ ("init" : String) = ("childUpdate"))) ∧
    (processEventC 1 c8Sys ("child") ("child_1") ("init") [] =
      { err? := none, sys := c8Sys, sends := [],
        trace := [(("child" : String), ("init" : String), ("child_1" : String))] }) :=
  ⟨nonpropagating_events.1 ("init"),
   nonpropagating_events.2 0 c8Sys c8Sys ("child") ("child_1") ("init") []
      _ _ c8ChildHandler _ ("parent") rfl rfl rfl rfl rfl rfl rfl rfl⟩

/-- find? returns an element satisfying its predicate (explicit form). -/
theorem find?_pred {α : Type} (p : α → Bool) (l : List α) (a : α)
    (h : l.find? p = some a) : p a = true :=
  List.find?_some h

/-- Search by name over a name-preserving component map commutes with the
lookup. -/
theorem find?_comp_mapNP (comps : List RComp) (g : RComp → RComp)
    (hg : ∀ c, (g c).name = c.name) (n : String) :
    (comps.map g).find? (fun c => c.name = n) =
      (comps.find? (fun c => c.name = n)).map g := by
  rw [List.find?_map]
  have hpred : ((fun c : RComp => decide (c.name = n)) ∘ g) =
      (fun c : RComp => decide (c.name = n)) := by
    funext c
    simp [Function.comp, hg c]
  rw [hpred]

/-- Finding by key in an association list whose keys are unique returns the
member itself. -/
theorem find?_keyed_of_mem {α : Type} (key : α → String) (l : List α) (a : α)
    (hnd : (l.map key).Nodup) (hm : a ∈ l) :
    l.find? (fun x => key x = key a) = some a := by
  induction l with
  | nil => cases hm
  | cons b rest ih =>
    simp only [List.map_cons, List.nodup_cons] at hnd
    cases hm with
    | head => simp [List.find?]
    | tail _ hm' =>
      have hne : ¬ (key b = key a) :=
        fun hh => hnd.1 (hh ▸ List.mem_map_of_mem key hm')
      simp only [List.find?]
      rw [show decide (key b = key a) = false by simp [hne]]
      exact ih hnd.2 hm'

/-- Key search over a key-preserving pair map. -/
theorem find?_pair_map {α : Type} (l : List (String × α)) (id id' : String)
    (f : α → α) :
    (l.map (fun p => if p.1 = id then (p.1, f p.2) else p)).find?
        (fun p => p.1 = id') =
      (l.find? (fun p => p.1 = id')).map
        (fun p => if p.1 = id then (p.1, f p.2) else p) := by
  rw [List.find?_map]
  have hpred : ((fun p : String × α => decide (p.1 = id')) ∘
      (fun p => if p.1 = id then (p.1, f p.2) else p)) =
      (fun p : String × α => decide (p.1 = id')) := by
    funext p
    by_cases h : p.1 = id <;> simp [Function.comp, h]
  rw [hpred]

/-- Looking up the modified slot. -/
theorem modifyInst_instAt_eq (sys : RSys) (cn id : String) (f : RInst → RInst) :
    (sys.modifyInst cn id f).instAt? cn id = (sys.instAt? cn id).map f := by
  unfold RSys.modifyInst RSys.instAt? RSys.findComp RComp.findInst
  dsimp only
  rw [find?_comp_mapNP sys.comps _
    (fun c => by by_cases h : c.name = cn <;> simp [h]) cn]
  cases hf : sys.comps.find? (fun c => c.name = cn) with
  | none => rfl
  | some c =>
    have h0 := find?_pred (fun c : RComp => decide (c.name = cn)) sys.comps c hf
    have hcname : c.name = cn := of_decide_eq_true h0
    dsimp only [Option.map, Option.bind]
    rw [if_pos hcname]
    dsimp only
    rw [find?_pair_map]
    cases hfi : c.insts.find? (fun p => p.1 = id) with
    | none => rfl
    | some p =>
      have h1 := find?_pred (fun p : String × RInst => decide (p.1 = id)) c.insts p hfi
      have hp : p.1 = id := of_decide_eq_true h1
      simp [hp]

/-- Looking up any other slot after a modification. -/
theorem modifyInst_instAt_ne (sys : RSys) (cn id : String) (f : RInst → RInst)
    (cn' id' : String) (hne : cn' ≠ cn ∨ id' ≠ id) :
    (sys.modifyInst cn id f).instAt? cn' id' = sys.instAt? cn' id' := by
  unfold RSys.modifyInst RSys.instAt? RSys.findComp RComp.findInst
  dsimp only
  rw [find?_comp_mapNP sys.comps _
    (fun c => by by_cases h : c.name = cn <;> simp [h]) cn']
  cases hf : sys.comps.find? (fun c => c.name = cn') with
  | none => rfl
  | some c =>
    have h0 := find?_pred (fun c : RComp => decide (c.name = cn')) sys.comps c hf
    have hcname : c.name = cn' := of_decide_eq_true h0
    by_cases hcc : c.name = cn
    · have hid : id' ≠ id := by
        cases hne with
        | inl h => exact absurd (hcname ▸ hcc) h
        | inr h => exact h
      dsimp only [Option.map, Option.bind]
      rw [if_pos hcc]
      dsimp only
      rw [find?_pair_map]
      cases hfi : c.insts.find? (fun p => p.1 = id') with
      | none => rfl
      | some p =>
        have h1 := find?_pred (fun p : String × RInst => decide (p.1 = id')) c.insts p hfi
        have hp : p.1 = id' := of_decide_eq_true h1
        have hpid : ¬ (p.1 = id) := fun hh => hid (hp ▸ hh)
        simp [hpid]
    · dsimp only [Option.map, Option.bind]
      rw [if_neg hcc]

/-- Modifying one instance never changes the list of ids. -/
theorem modifyInst_allIds (sys : RSys) (cn id : String) (f : RInst → RInst) :
    (sys.modifyInst cn id f).allIds = sys.allIds := by
  unfold RSys.modifyInst RSys.allIds RSys.allInsts
  dsimp only
  induction sys.comps with
  | nil => rfl
  | cons c rest ih =>
    simp only [List.map_cons, List.flatMap_cons, List.map_append]
    rw [ih]
    congr 1
    by_cases h : c.name = cn
    · simp only [if_pos h]
      rw [List.map_map]
      apply List.map_congr_left
      intro p _
      by_cases hp : p.1 = id <;> simp [Function.comp, hp]
    · simp [if_neg h]

/-- Membership in the id list, elementwise. -/
theorem mem_allIds (sys : RSys) (id : String) :
    id ∈ sys.allIds ↔ ∃ c ∈ sys.comps, ∃ p ∈ c.insts, p.1 = id := by
  unfold RSys.allIds RSys.allInsts
  constructor
  · intro h
    obtain ⟨p, hp, hpid⟩ := List.mem_map.mp h
    obtain ⟨c, hc, hpc⟩ := List.mem_flatMap.mp hp
    exact ⟨c, hc, p, hpc, hpid⟩
  · rintro ⟨c, hc, p, hp, rfl⟩
    exact List.mem_map.mpr ⟨p, List.mem_flatMap.mpr ⟨c, hc, hp⟩, rfl⟩

/-- Storing a fresh id leaves every other slot unchanged and makes the new
record visible at its own slot (when its component is registered). -/
theorem setInstIn_instAt (sys : RSys) (cn id : String) (v : RInst)
    (hfresh : id ∉ sys.allIds) (cn' id' : String) :
    (sys.setInstIn cn id v).instAt? cn' id' =
      if cn' = cn ∧ id' = id then (sys.findComp cn).map (fun _ => v)
      else sys.instAt? cn' id' := by
  unfold RSys.setInstIn RSys.instAt? RSys.findComp RComp.findInst
  rw [find?_comp_mapNP sys.comps _
    (fun c => by
      by_cases hn : c.name = cn
      · simp only [if_pos hn]
        unfold RComp.setInst
        by_cases h : c.insts.any (fun p => p.1 = id) = true <;> simp [h]
      · simp [if_neg hn]) cn']
  cases hf : sys.comps.find? (fun c => c.name = cn') with
  | none =>
    by_cases hcond : cn' = cn ∧ id' = id
    · have h1 := hcond.1
      subst h1
      rw [if_pos hcond, hf]
      rfl
    · rw [if_neg hcond]
      rfl
  | some c =>
    have h0 := find?_pred (fun c : RComp => decide (c.name = cn')) sys.comps c hf
    have hcname : c.name = cn' := of_decide_eq_true h0
    have hcmem : c ∈ sys.comps := List.mem_of_find?_eq_some hf
    dsimp only [Option.map, Option.bind]
    by_cases hcc : c.name = cn
    · have hcneq : cn' = cn := by rw [← hcname, hcc]
      subst hcneq
      rw [if_pos hcc]
      have hany : c.insts.any (fun p => p.1 = id) = false := by
        rw [List.any_eq_false]
        intro p hp hdec
        exact hfresh ((mem_allIds sys id).mpr ⟨c, hcmem, p, hp, of_decide_eq_true hdec⟩)
      unfold RComp.setInst
      rw [hany]
      rw [if_neg (fun h => Bool.false_ne_true h)]
      dsimp only
      rw [List.find?_append]
      by_cases hid : id' = id
      · subst hid
        have hnone : c.insts.find? (fun p => p.1 = id') = none := by
          rw [List.find?_eq_none]
          intro p hp hdec
          exact hfresh ((mem_allIds sys id').mpr ⟨c, hcmem, p, hp, of_decide_eq_true hdec⟩)
        rw [if_pos ⟨rfl, rfl⟩, hnone, hf]
        simp [List.find?]
      · have hdec : decide (id = id') = false := by
          simp only [decide_eq_false_iff_not]
          exact fun h => hid h.symm
        have hone : List.find? (fun p => p.1 = id') [(id, v)] = none := by
          simp [List.find?, hdec]
        rw [hone]
        rw [if_neg (fun h => hid h.2)]
        cases c.insts.find? (fun p => p.1 = id') <;> rfl
    · have hcond : ¬ (cn' = cn ∧ id' = id) := fun h => hcc (hcname.trans h.1)
      rw [if_neg hcond, if_neg hcc]

/-- Map.set makes the stored id visible whenever its component exists. -/
theorem setInstIn_present (sys : RSys) (cn id : String) (v : RInst)
    (hcomp : (sys.findComp cn).isSome) :
    ((sys.setInstIn cn id v).instAt? cn id).isSome := by
  unfold RSys.setInstIn RSys.instAt? RSys.findComp RComp.findInst
  rw [find?_comp_mapNP sys.comps _
    (fun c => by
      by_cases hn : c.name = cn
      · simp only [if_pos hn]
        unfold RComp.setInst
        by_cases h : c.insts.any (fun p => p.1 = id) = true <;> simp [h]
      · simp [if_neg hn]) cn]
  obtain ⟨c, hc⟩ := Option.isSome_iff_exists.mp hcomp
  rw [show List.find? (fun c => decide (c.name = cn)) sys.comps = some c from hc]
  have h0 := find?_pred (fun c : RComp => decide (c.name = cn)) sys.comps c
    (show List.find? (fun c => decide (c.name = cn)) sys.comps = some c from hc)
  have hcname : c.name = cn := of_decide_eq_true h0
  dsimp only [Option.map, Option.bind]
  rw [if_pos hcname]
  unfold RComp.setInst
  by_cases hany : c.insts.any (fun p => p.1 = id) = true
  · rw [if_pos hany]
    dsimp only
    rw [find?_pair_map c.insts id id (fun _ => v)]
    have hs : (c.insts.find? (fun p => p.1 = id)).isSome := by
      rw [List.find?_isSome]
      obtain ⟨p, hp, hpid⟩ := List.any_eq_true.mp hany
      exact ⟨p, hp, hpid⟩
    obtain ⟨q, hq⟩ := Option.isSome_iff_exists.mp hs
    rw [hq]
    rfl
  · rw [if_neg hany]
    dsimp only
    rw [List.find?_append]
    have h2 : List.find? (fun p => p.1 = id) [(id, v)] = some (id, v) := by
      simp [List.find?]
    rw [h2]
    cases c.insts.find? (fun p => p.1 = id) <;> rfl

/-- One back-pointer push preserves which slots are occupied. -/
theorem pushStep_isSome (nid : String) (s : RSys) (sid : String) (cn id : String) :
    ((pushStep nid s sid).instAt? cn id).isSome = (s.instAt? cn id).isSome := by
  unfold pushStep
  cases h1 : s.findComp (prefixOf sid) with
  | none => rfl
  | some c =>
    dsimp only
    cases h2 : c.findInst sid with
    | none => rfl
    | some i =>
      dsimp only
      by_cases hcc : cn = prefixOf sid ∧ id = sid
      · rw [hcc.1, hcc.2, modifyInst_instAt_eq]
        cases ho : s.instAt? (prefixOf sid) sid <;> simp [ho]
      · rw [modifyInst_instAt_ne]
        rcases not_and_or.mp hcc with h | h
        · exact Or.inl h
        · exact Or.inr h

/-- The whole back-pointer fold preserves which slots are occupied. -/
theorem pushFold_isSome (nid : String) (sibs : List String) (s : RSys) (cn id : String) :
    ((sibs.foldl (pushStep nid) s).instAt? cn id).isSome = (s.instAt? cn id).isSome := by
  induction sibs generalizing s with
  | nil => rfl
  | cons x rest ih => rw [List.foldl_cons, ih, pushStep_isSome]

/-- createInstance always stores the new instance (when the component is
registered, which the caller has checked). -/
theorem createInstanceCore_present (sys : RSys) (componentId instanceId : String)
    (dataParent : Option String) (dataChildren : List String)
    (hcomp : (sys.findComp componentId).isSome) :
    ((createInstanceCore sys componentId instanceId dataParent
      dataChildren).instAt? componentId instanceId).isSome := by
  unfold createInstanceCore
  rw [pushFold_isSome, modifyInst_instAt_eq, modifyInst_instAt_eq]
  have h1 := setInstIn_present sys componentId instanceId
    ⟨dataParent, dataChildren, [], 0⟩ hcomp
  obtain ⟨q, hq⟩ := Option.isSome_iff_exists.mp h1
  rw [hq]
  rfl

/-- C5 counterexample: with order [system, parent, child] and no instances
at all, creating a child instance raises no error and creates the instance,
contrary to the claim that creating a child before any parent instance
exists raises an error (no component listed after child has an instance, so
the order constraint passes). -/
theorem ordered_creation_counterexample :
    c5ChildFirst.isOk = true ∧
    ((exceptSys c5ChildFirst).instAt? ("child") ("child_1")).isSome = true := by
  exact ⟨rfl, rfl⟩

/-- C5 (amended): createInstanceInOrder refuses — raising an error and
creating nothing — exactly when some component listed after this one in the
order already has an instance; when no later-listed component has any
instance (and this component is registered), the call succeeds and creates
the instance.  With order [system, parent, child]: creating parent after a
child instance exists raises, while creating parent first and then child
succeeds; creating child first also succeeds, since no component follows
child in the order. -/
theorem ordered_creation_amended :
    (∀ (sys : RSys) (selfName instanceId : String) (dataParent : Option String)
        (dataChildren : List String) (order : List String) (i : Nat),
      order.findIdx? (fun n => n = selfName) = some i →
      (∃ n ∈ order.drop (i + 1),
        (match sys.findComp n with
         | some c => c.insts ≠ []
         | none => False)) →
      (sys.createInstanceInOrder selfName instanceId dataParent dataChildren
        order).isOk = false) ∧
    (∀ (sys : RSys) (selfName instanceId : String) (dataParent : Option String)
        (dataChildren : List String) (order : List String) (i : Nat),
      order.findIdx? (fun n => n = selfName) = some i →
      (∀ n ∈ order.drop (i + 1),
        (match sys.findComp n with
         | some c => c.insts = []
         | none => True)) →
      (sys.findComp selfName).isSome →
      ∃ sys', sys.createInstanceInOrder selfName instanceId dataParent
          dataChildren order = .ok sys' ∧
        (sys'.instAt? selfName instanceId).isSome) ∧
    (c5ParentAfterChild.isOk = false) ∧
    (c5ThenChild.isOk = true ∧
     ((exceptSys c5ThenChild).instAt? ("parent") ("parent_1")).isSome = true ∧
     ((exceptSys c5ThenChild).instAt? ("child") ("child_1")).isSome = true) := by
  refine ⟨?_, ?_, by decide, by decide, by decide, by decide⟩
  · intro sys selfName instanceId dataParent dataChildren order i hidx hlater
    unfold RSys.createInstanceInOrder
    rw [hidx]
    dsimp only
    obtain ⟨n, hn, hmatch⟩ := hlater
    have hpred : (fun n =>
        match sys.findComp n with
        | some c => decide (c.getInstanceCount > 0)
        | none => false) n = true := by
      cases hc : sys.findComp n with
      | none => rw [hc] at hmatch; cases hmatch
      | some c =>
        rw [hc] at hmatch
        dsimp only
        rw [hc]
        have hpos : c.getInstanceCount > 0 := by
          unfold RComp.getInstanceCount
          exact List.length_pos.mpr hmatch
        simp [hpos]
    have hsome : ((order.drop (i + 1)).find? (fun n =>
        match sys.findComp n with
        | some c => decide (c.getInstanceCount > 0)
        | none => false)).isSome := by
      rw [List.find?_isSome]
      exact ⟨n, hn, hpred⟩
    obtain ⟨m, hm⟩ := Option.isSome_iff_exists.mp hsome
    rw [hm]
    rfl
  · intro sys selfName instanceId dataParent dataChildren order i hidx hnone hcomp
    unfold RSys.createInstanceInOrder
    rw [hidx]
    dsimp only
    have hev : ∀ n, (match sys.findComp n with
        | some c => c.insts = []
        | none => True) →
        (match sys.findComp n with
         | some c => decide (c.getInstanceCount > 0)
         | none => false) = false := by
      intro n hm2
      cases hc : sys.findComp n with
      | none => rfl
      | some c =>
        rw [hc] at hm2
        unfold RComp.getInstanceCount
        simp [hm2]
    have hfind : ((order.drop (i + 1)).find? (fun n =>
        match sys.findComp n with
        | some c => decide (c.getInstanceCount > 0)
        | none => false)) = none := by
      rw [List.find?_eq_none]
      intro n hn
      show ¬ (match sys.findComp n with
        | some c => decide (c.getInstanceCount > 0)
        | none => false) = true
      rw [hev n (hnone n hn)]
      simp
    rw [hfind]
    unfold RSys.createInstance
    obtain ⟨comp, hcomp'⟩ := Option.isSome_iff_exists.mp hcomp
    rw [hcomp']
    exact ⟨_, rfl, createInstanceCore_present sys selfName instanceId dataParent
      dataChildren (by rw [hcomp']; rfl)⟩

/-- Witness for C5 at the parent/child order scenario. -/
theorem ordered_creation_amended_witness :
    (((exceptSys c5ChildFirst).createInstanceInOrder ("parent") ("parent_1")
      none [] c5Order).isOk = false) ∧
    (∃ sys', c5Sys.createInstanceInOrder ("parent") ("parent_1") none []
        c5Order = .ok sys' ∧
      (sys'.instAt? ("parent") ("parent_1")).isSome) :=
  ⟨ordered_creation_amended.1 (exceptSys c5ChildFirst) ("parent") ("parent_1")
      none [] c5Order 1 rfl
      ⟨("child"), by decide, by intro h; exact absurd h (by decide)⟩,
   ordered_creation_amended.2.1 c5Sys ("parent") ("parent_1") none [] c5Order 1
      rfl (by intro n hn; simp [c5Order] at hn; subst hn; exact rfl) rfl⟩

/-- Scan position of `dsiAux`: when the target occurs among the scanned ids,
the returned index is the running start plus the number of sibling-list
members passed strictly before the target's first occurrence. -/
theorem dsiAux_eq (target : String) (sibs : List String) :
    ∀ (l : List (String × RInst)) (idx : Int),
      target ∈ l.map (fun p => p.1) →
      dsiAux l target sibs idx =
        some (idx + (((l.map (fun p => p.1)).takeWhile
          (fun x => x ≠ target)).countP (fun x => sibs.contains x) : Int)) := by
  intro l
  induction l with
  | nil => intro idx h; simp at h
  | cons p rest ih =>
    intro idx hmem
    unfold dsiAux
    by_cases hp : p.1 = target
    · rw [if_pos hp]
      simp [List.takeWhile_cons, hp]
    · rw [if_neg hp]
      have hmem' : target ∈ rest.map (fun q => q.1) := by
        simp only [List.map_cons, List.mem_cons] at hmem
        exact hmem.resolve_left (fun h => hp h.symm)
      by_cases hs : sibs.contains p.1 = true
      · have hs' : p.1 ∈ sibs := by simpa using hs
        rw [if_pos hs, ih (idx + 1) hmem']
        have hB : ((((p :: rest).map (fun q => q.1)).takeWhile
              (fun x => x ≠ target)).countP (fun x => sibs.contains x)) =
            (((rest.map (fun q => q.1)).takeWhile
              (fun x => x ≠ target)).countP (fun x => sibs.contains x)) + 1 := by
          simp [List.takeWhile_cons, hp, List.countP_cons, hs']
        rw [hB]
        congr 1
        push_cast
        ring
      · have hs' : p.1 ∉ sibs := by simpa using hs
        rw [if_neg hs, ih idx hmem']
        have hB : ((((p :: rest).map (fun q => q.1)).takeWhile
              (fun x => x ≠ target)).countP (fun x => sibs.contains x)) =
            (((rest.map (fun q => q.1)).takeWhile
              (fun x => x ≠ target)).countP (fun x => sibs.contains x)) := by
          simp [List.takeWhile_cons, hp, List.countP_cons, hs']
        rw [hB]

/-- `determineSiblingIndex` of a stored instance is its global-store-order
sibling count: the number of sibling-list members occurring before the id in
the flattened store (components in registration order, instances in
insertion order). -/
theorem determineSiblingIndex_eq (sys : RSys) (id : String) (sibs : List String)
    (h : id ∈ sys.allIds) :
    sys.determineSiblingIndex id sibs =
      ((sys.allIds.takeWhile (fun x => x ≠ id)).countP
        (fun x => sibs.contains x) : Int) := by
  unfold RSys.determineSiblingIndex
  rw [dsiAux_eq id sibs sys.allInsts 0 h]
  simp [RSys.allIds]

/-- Overwriting by key commutes with searching by a key. -/
theorem find?_pair_set {α : Type} (l : List (String × α)) (id id' : String)
    (v : α) :
    (l.map (fun p => if p.1 = id then (p.1, v) else p)).find?
        (fun p => p.1 = id') =
      (l.find? (fun p => p.1 = id')).map
        (fun p => if p.1 = id then (p.1, v) else p) := by
  rw [List.find?_map]
  have hpred : ((fun p : String × α => decide (p.1 = id')) ∘
      (fun p => if p.1 = id then (p.1, v) else p)) =
      (fun p : String × α => decide (p.1 = id')) := by
    funext p
    by_cases h : p.1 = id <;> simp [Function.comp, h]
  rw [hpred]

/-- Storing at one id leaves the slot of any other id unchanged, whether the
stored id existed before (in-place overwrite) or not (append). -/
theorem setInstIn_instAt_ne (sys : RSys) (cn id : String) (v : RInst)
    (cn' id' : String) (hid : id' ≠ id) :
    (sys.setInstIn cn id v).instAt? cn' id' = sys.instAt? cn' id' := by
  unfold RSys.setInstIn RSys.instAt? RSys.findComp RComp.findInst
  rw [find?_comp_mapNP sys.comps _
    (fun c => by
      by_cases hn : c.name = cn
      · simp only [if_pos hn]
        unfold RComp.setInst
        by_cases h : c.insts.any (fun p => p.1 = id) = true <;> simp [h]
      · simp [if_neg hn]) cn']
  cases hf : sys.comps.find? (fun c => c.name = cn') with
  | none => rfl
  | some c =>
    dsimp only [Option.map, Option.bind]
    by_cases hcc : c.name = cn
    · rw [if_pos hcc]
      unfold RComp.setInst
      by_cases hany : c.insts.any (fun p => p.1 = id) = true
      · rw [if_pos hany]
        dsimp only
        rw [find?_pair_set]
        cases hq : c.insts.find? (fun p => p.1 = id') with
        | none => rfl
        | some q =>
          have hq1 : q.1 = id' :=
            of_decide_eq_true (find?_pred (fun p : String × RInst =>
              decide (p.1 = id')) c.insts q hq)
          have hqid : ¬ (q.1 = id) := fun h => hid (hq1 ▸ h)
          simp [hqid]
      · rw [if_neg hany]
        dsimp only
        rw [List.find?_append]
        have hd : (decide (id = id')) = false :=
          decide_eq_false_iff_not.mpr (fun h => hid (Eq.symm h))
        have hsing : ([(id, v)].find? (fun p => p.1 = id')) = none := by
          simp [List.find?, hd]
        rw [hsing]
        cases c.insts.find? (fun p => p.1 = id') <;> rfl
    · rw [if_neg hcc]

/-- `modifyInst` with a function preserving a projection preserves that
projection of every slot. -/
theorem modifyInst_map_proj {β : Type} (proj : RInst → β) (sys : RSys)
    (cn id : String) (f : RInst → RInst) (hf : ∀ i, proj (f i) = proj i)
    (cn' id' : String) :
    ((sys.modifyInst cn id f).instAt? cn' id').map proj =
      (sys.instAt? cn' id').map proj := by
  by_cases hcc : cn' = cn ∧ id' = id
  · rw [hcc.1, hcc.2, modifyInst_instAt_eq]
    cases sys.instAt? cn id with
    | none => rfl
    | some i => simp [hf]
  · rw [modifyInst_instAt_ne sys cn id f cn' id'
      (by rcases not_and_or.mp hcc with h | h <;> [exact Or.inl h; exact Or.inr h])]

/-- `pushOnce` never touches the sibling index. -/
theorem pushOnce_siblingIndex (nid : String) (i : RInst) :
    (pushOnce nid i).siblingIndex = i.siblingIndex := by
  unfold pushOnce
  by_cases h : nid ∈ i.siblingInstanceIds <;> simp [h]

/-- One sibling back-pointer push leaves every sibling index unchanged. -/
theorem pushStep_siblingIndex (nid : String) (s : RSys) (sid : String)
    (cn id : String) :
    ((pushStep nid s sid).instAt? cn id).map (fun i => i.siblingIndex) =
      (s.instAt? cn id).map (fun i => i.siblingIndex) := by
  unfold pushStep
  cases h1 : s.findComp (prefixOf sid) with
  | none => rfl
  | some c =>
    dsimp only
    cases h2 : c.findInst sid with
    | none => rfl
    | some i =>
      exact modifyInst_map_proj (fun i => i.siblingIndex) s (prefixOf sid) sid
        (pushOnce nid) (pushOnce_siblingIndex nid) cn id

/-- The whole back-pointer loop leaves every sibling index unchanged. -/
theorem pushFold_siblingIndex (nid : String) (sibs : List String) (s : RSys)
    (cn id : String) :
    ((sibs.foldl (pushStep nid) s).instAt? cn id).map (fun i => i.siblingIndex) =
      (s.instAt? cn id).map (fun i => i.siblingIndex) := by
  induction sibs generalizing s with
  | nil => rfl
  | cons x rest ih => rw [List.foldl_cons, ih, pushStep_siblingIndex]

/-- `createInstance` never renumbers existing instances: every id other than
the created one keeps its sibling index. -/
theorem createInstanceCore_siblingIndex (sys : RSys)
    (componentId instanceId : String) (dataParent : Option String)
    (dataChildren : List String) (cn' id' : String) (hid : id' ≠ instanceId) :
    (((createInstanceCore sys componentId instanceId dataParent
        dataChildren).instAt? cn' id').map (fun i => i.siblingIndex)) =
      ((sys.instAt? cn' id').map (fun i => i.siblingIndex)) := by
  unfold createInstanceCore
  rw [pushFold_siblingIndex,
    modifyInst_instAt_ne _ _ _ _ _ _ (Or.inr hid),
    modifyInst_instAt_ne _ _ _ _ _ _ (Or.inr hid),
    setInstIn_instAt_ne _ _ _ _ _ _ hid]

/-- C7 counterexample: components a then b; b_1 is created first, a_1
second, both parentless, so they form one sibling group attached in order
[b_1, a_1].  The claim demands sibling indices 0 for b_1 and 1 for a_1 (the
0-based attachment positions, with no gaps or duplicates after the group
changes), but the code gives BOTH instances index 0: a_1's index is its
position in the global store scan (component a is registered before b, so
a_1 precedes b_1 there), and createInstance never renumbers the existing
member b_1. -/
theorem sibling_index_counterexample :
    (((exceptSys c7CrossStep2).instAt? ("a") ("a_1")).map
      (fun i => (i.siblingInstanceIds, i.siblingIndex))) =
        some ([("b_1")], 0) ∧
    (((exceptSys c7CrossStep2).instAt? ("b") ("b_1")).map
      (fun i => (i.siblingInstanceIds, i.siblingIndex))) =
        some ([("a_1")], 0) :=
  ⟨rfl, rfl⟩

/-- C7 (amended): sibling indices are assigned by the global store scan, not
by attachment order, and existing group members are never renumbered by
createInstance.  Precisely: (1) determineSiblingIndex of a stored id is the
number of its sibling-list members occurring strictly before it in the
flattened store (components in registration order, instance stores in
insertion order); (2) a successful createInstance leaves the siblingIndex of
every other id unchanged; (3) for instances of a single component created in
sequence, store order does coincide with attachment order, and indices come
out 0, 1, 2 gap-free (p_1, p_2, p_3 of component p). -/
theorem sibling_index_amended :
    (∀ (sys : RSys) (id : String) (sibs : List String), id ∈ sys.allIds →
      sys.determineSiblingIndex id sibs =
        ((sys.allIds.takeWhile (fun x => x ≠ id)).countP
          (fun x => sibs.contains x) : Int)) ∧
    (∀ (sys sys' : RSys) (componentId instanceId : String)
        (dataParent : Option String) (dataChildren : List String)
        (cn' id' : String), id' ≠ instanceId →
      sys.createInstance componentId instanceId dataParent dataChildren =
        .ok sys' →
      ((sys'.instAt? cn' id').map (fun i => i.siblingIndex)) =
        ((sys.instAt? cn' id').map (fun i => i.siblingIndex))) ∧
    ((((exceptSys c7SameComp).instAt? ("p") ("p_1")).map
        (fun i => i.siblingIndex)) = some 0 ∧
     (((exceptSys c7SameComp).instAt? ("p") ("p_2")).map
        (fun i => i.siblingIndex)) = some 1 ∧
     (((exceptSys c7SameComp).instAt? ("p") ("p_3")).map
        (fun i => i.siblingIndex)) = some 2) := by
  refine ⟨determineSiblingIndex_eq, ?_, rfl, rfl, rfl⟩
  intro sys sys' componentId instanceId dataParent dataChildren cn' id' hid hok
  unfold RSys.createInstance at hok
  cases hc : sys.findComp componentId with
  | none => rw [hc] at hok; cases hok
  | some c =>
    rw [hc] at hok
    cases hok
    exact createInstanceCore_siblingIndex sys componentId instanceId dataParent
      dataChildren cn' id' hid

/-- Witness for C7 at the cross-component scenario: the index formula for
b_1 with sibling list [a_1], and preservation of b_1's index across the
creation of a_1. -/
theorem sibling_index_amended_witness :
    ((("b_1") ∈ (exceptSys c7CrossStep1).allIds) ∧
     (exceptSys c7CrossStep1).determineSiblingIndex ("b_1") [("a_1")] =
       (((exceptSys c7CrossStep1).allIds.takeWhile
         (fun x => x ≠ ("b_1"))).countP
           (fun x => [("a_1")].contains x) : Int)) ∧
    ((("b_1") ≠ ("a_1")) ∧
     (exceptSys c7CrossStep1).createInstance ("a") ("a_1") none [] =
       .ok (exceptSys c7CrossStep2) ∧
     (((exceptSys c7CrossStep2).instAt? ("b") ("b_1")).map
         (fun i => i.siblingIndex)) =
       (((exceptSys c7CrossStep1).instAt? ("b") ("b_1")).map
         (fun i => i.siblingIndex))) :=
  ⟨⟨by decide, sibling_index_amended.1 (exceptSys c7CrossStep1) ("b_1")
      [("a_1")] (by decide)⟩,
   ⟨by decide, rfl, sibling_index_amended.2.1 (exceptSys c7CrossStep1)
      (exceptSys c7CrossStep2) ("a") ("a_1") none [] ("b") ("b_1")
      (by decide) rfl⟩⟩

/-- A stored slot yields a member of some registered component. -/
theorem mem_of_instAt (sys : RSys) (cn id : String) (v : RInst)
    (h : sys.instAt? cn id = some v) :
    ∃ c ∈ sys.comps, c.name = cn ∧ (id, v) ∈ c.insts := by
  unfold RSys.instAt? RSys.findComp RComp.findInst at h
  cases hf : sys.comps.find? (fun c => c.name = cn) with
  | none => rw [hf] at h; cases h
  | some c =>
    rw [hf] at h
    have hcmem := List.mem_of_find?_eq_some hf
    have hcname : c.name = cn :=
      of_decide_eq_true (find?_pred (fun c : RComp => decide (c.name = cn))
        sys.comps c hf)
    dsimp only [Option.bind] at h
    cases hq : c.insts.find? (fun p => p.1 = id) with
    | none => rw [hq] at h; cases h
    | some q =>
      rw [hq] at h
      have hqmem := List.mem_of_find?_eq_some hq
      have hqid : q.1 = id :=
        of_decide_eq_true (find?_pred (fun p : String × RInst =>
          decide (p.1 = id)) c.insts q hq)
      refine ⟨c, hcmem, hcname, ?_⟩
      have hv : v = q.2 := by
        simp only [Option.map] at h
        exact (Option.some.injEq _ _).mp h.symm
      rw [hv, ← hqid]
      exact hqmem

/-- Under well-formedness, every stored member is retrievable at its own
component name and id. -/
theorem instAt_of_mem (sys : RSys) (hwf : sys.WF) (c : RComp)
    (hc : c ∈ sys.comps) (p : String × RInst) (hp : p ∈ c.insts) :
    sys.instAt? c.name p.1 = some p.2 := by
  unfold RSys.instAt? RSys.findComp RComp.findInst
  have hfc : sys.comps.find? (fun x => x.name = c.name) = some c :=
    find?_keyed_of_mem (fun x => x.name) sys.comps c hwf.1 hc
  rw [hfc]
  have hnd : (c.insts.map (fun q => q.1)).Nodup := (hwf.2 c hc).1
  have hfi : c.insts.find? (fun q => q.1 = p.1) = some p :=
    find?_keyed_of_mem (fun q => q.1) c.insts p hnd hp
  dsimp only [Option.bind]
  rw [hfi]
  rfl

/-- Under well-formedness, membership in the flattened store is exactly
retrievability at the id's prefix. -/
theorem allInsts_mem_iff (sys : RSys) (hwf : sys.WF) (p : String × RInst) :
    p ∈ sys.allInsts ↔ sys.instAt? (prefixOf p.1) p.1 = some p.2 := by
  constructor
  · intro h
    obtain ⟨c, hc, hp⟩ := List.mem_flatMap.mp h
    have hpre : prefixOf p.1 = c.name := ((hwf.2 c hc).2 p hp).1
    rw [hpre]
    exact instAt_of_mem sys hwf c hc p hp
  · intro h
    obtain ⟨c, hc, hname, hmem⟩ := mem_of_instAt sys (prefixOf p.1) p.1 p.2 h
    exact List.mem_flatMap.mpr ⟨c, hc, hmem⟩

/-- Well-formedness depends only on the name/key skeleton: a componentwise
map preserving names and instance keys preserves it. -/
theorem WF_map (sys : RSys) (g : RComp → RComp)
    (hn : ∀ c, (g c).name = c.name)
    (hk : ∀ c, (g c).insts.map (fun p => p.1) = c.insts.map (fun p => p.1)) :
    (RSys.mk (sys.comps.map g)).WF ↔ sys.WF := by
  unfold RSys.WF
  have hnames : ((sys.comps.map g).map (fun c => c.name)) =
      (sys.comps.map (fun c => c.name)) := by
    rw [List.map_map]
    exact List.map_congr_left (fun c _ => hn c)
  have hbody : ∀ c, ((((g c).insts.map (fun p => p.1)).Nodup ∧
      ∀ p ∈ (g c).insts, prefixOf p.1 = (g c).name ∧ p.1 ≠ ("")) ↔
      ((c.insts.map (fun p => p.1)).Nodup ∧
      ∀ p ∈ c.insts, prefixOf p.1 = c.name ∧ p.1 ≠ (""))) := by
    intro c
    rw [hk c, hn c]
    have hq : (∀ p ∈ (g c).insts, prefixOf p.1 = c.name ∧ p.1 ≠ ("")) ↔
        (∀ p ∈ c.insts, prefixOf p.1 = c.name ∧ p.1 ≠ ("")) := by
      constructor
      · intro h p hp
        have : p.1 ∈ (g c).insts.map (fun q => q.1) := by
          rw [hk c]
          exact List.mem_map_of_mem _ hp
        obtain ⟨q, hq2, hq1⟩ := List.mem_map.mp this
        have := h q hq2
        rw [hq1] at this
        exact this
      · intro h p hp
        have : p.1 ∈ c.insts.map (fun q => q.1) := by
          rw [← hk c]
          exact List.mem_map_of_mem _ hp
        obtain ⟨q, hq2, hq1⟩ := List.mem_map.mp this
        have := h q hq2
        rw [hq1] at this
        exact this
    exact and_congr Iff.rfl hq
  constructor
  · intro ⟨h1, h2⟩
    refine ⟨by rwa [hnames] at h1, fun c hc => ?_⟩
    exact (hbody c).mp (h2 (g c) (List.mem_map_of_mem g hc))
  · intro ⟨h1, h2⟩
    refine ⟨by rwa [hnames], fun c' hc' => ?_⟩
    obtain ⟨c, hc, rfl⟩ := List.mem_map.mp hc'
    exact (hbody c).mpr (h2 c hc)

/-- `modifyInst` preserves well-formedness (the skeleton is untouched). -/
theorem modifyInst_WF (sys : RSys) (cn id : String) (f : RInst → RInst) :
    (sys.modifyInst cn id f).WF ↔ sys.WF := by
  unfold RSys.modifyInst
  exact WF_map sys _
    (fun c => by by_cases h : c.name = cn <;> simp [h])
    (fun c => by
      by_cases h : c.name = cn
      · simp only [if_pos h]
        rw [List.map_map]
        exact List.map_congr_left (fun p _ => by
          by_cases hp : p.1 = id <;> simp [Function.comp, hp])
      · simp [if_neg h])

/-- A globally fresh id is absent from every component's store. -/
theorem any_key_false_of_fresh (sys : RSys) (id : String)
    (hfresh : id ∉ sys.allIds) (c : RComp) (hc : c ∈ sys.comps) :
    (c.insts.any (fun p => p.1 = id)) = false := by
  rw [List.any_eq_false]
  intro p hp habs
  exact hfresh ((mem_allIds sys id).mpr ⟨c, hc, p, hp, of_decide_eq_true habs⟩)

/-- Storing a fresh, convention-respecting id preserves well-formedness. -/
theorem setInstIn_WF_fresh (sys : RSys) (cn id : String) (v : RInst)
    (hwf : sys.WF) (hfresh : id ∉ sys.allIds) (hpre : prefixOf id = cn)
    (hne : id ≠ ("")) : (sys.setInstIn cn id v).WF := by
  unfold RSys.setInstIn
  constructor
  · rw [List.map_map]
    have : ((fun c : RComp => c.name) ∘
        (fun c => if c.name = cn then c.setInst id v else c)) =
        (fun c : RComp => c.name) := by
      funext c
      by_cases h : c.name = cn
      · simp only [Function.comp, if_pos h]
        unfold RComp.setInst
        by_cases ha : (c.insts.any (fun p => p.1 = id)) = true <;> simp [ha]
      · simp [Function.comp, if_neg h]
    rw [this]
    exact hwf.1
  · intro c' hc'
    obtain ⟨c, hc, rfl⟩ := List.mem_map.mp hc'
    by_cases h : c.name = cn
    · rw [if_pos h]
      unfold RComp.setInst
      rw [any_key_false_of_fresh sys id hfresh c hc]
      simp only [Bool.false_eq_true, if_false]
      constructor
      · rw [List.map_append]
        rw [List.nodup_append]
        refine ⟨(hwf.2 c hc).1, List.nodup_singleton id, ?_⟩
        intro x hx hx1
        have hxid : x = id := by simpa using hx1
        subst hxid
        obtain ⟨p, hp, hp1⟩ := List.mem_map.mp hx
        exact hfresh ((mem_allIds sys x).mpr ⟨c, hc, p, hp, hp1⟩)
      · intro p hp
        rcases List.mem_append.mp hp with hold | hnew
        · exact (hwf.2 c hc).2 p hold
        · have : p = (id, v) := by simpa using hnew
          subst this
          exact ⟨by rw [hpre, h], hne⟩
    · rw [if_neg h]
      exact hwf.2 c hc

/-- Flattened-store membership after storing a fresh id. -/
theorem mem_allInsts_setInstIn_fresh (sys : RSys) (cn id : String) (v : RInst)
    (hfresh : id ∉ sys.allIds) (p : String × RInst) :
    p ∈ (sys.setInstIn cn id v).allInsts ↔
      p ∈ sys.allInsts ∨ (p = (id, v) ∧ ∃ c ∈ sys.comps, c.name = cn) := by
  unfold RSys.setInstIn RSys.allInsts
  simp only [List.mem_flatMap]
  constructor
  · rintro ⟨c', hc', hp⟩
    obtain ⟨c, hc, rfl⟩ := List.mem_map.mp hc'
    by_cases h : c.name = cn
    · rw [if_pos h] at hp
      unfold RComp.setInst at hp
      rw [any_key_false_of_fresh sys id hfresh c hc] at hp
      simp only [Bool.false_eq_true, if_false] at hp
      rcases List.mem_append.mp hp with hold | hnew
      · exact Or.inl ⟨c, hc, hold⟩
      · exact Or.inr ⟨by simpa using hnew, c, hc, h⟩
    · rw [if_neg h] at hp
      exact Or.inl ⟨c, hc, hp⟩
  · rintro (⟨c, hc, hp⟩ | ⟨rfl, c, hc, hname⟩)
    · refine ⟨if c.name = cn then c.setInst id v else c,
        List.mem_map_of_mem _ hc, ?_⟩
      by_cases h : c.name = cn
      · rw [if_pos h]
        unfold RComp.setInst
        rw [any_key_false_of_fresh sys id hfresh c hc]
        simp only [Bool.false_eq_true, if_false]
        exact List.mem_append_left _ hp
      · rw [if_neg h]
        exact hp
    · refine ⟨if c.name = cn then c.setInst id v else c,
        List.mem_map_of_mem _ hc, ?_⟩
      rw [if_pos hname]
      unfold RComp.setInst
      rw [any_key_false_of_fresh sys id hfresh c hc]
      simp only [Bool.false_eq_true, if_false]
      exact List.mem_append_right _ (List.mem_singleton.mpr rfl)

/-- Id membership after storing a fresh id. -/
theorem mem_allIds_setInstIn_fresh (sys : RSys) (cn id : String) (v : RInst)
    (hfresh : id ∉ sys.allIds) (x : String) :
    x ∈ (sys.setInstIn cn id v).allIds ↔
      x ∈ sys.allIds ∨ (x = id ∧ ∃ c ∈ sys.comps, c.name = cn) := by
  unfold RSys.allIds
  simp only [List.mem_map]
  constructor
  · rintro ⟨p, hp, rfl⟩
    rcases (mem_allInsts_setInstIn_fresh sys cn id v hfresh p).mp hp with
      hold | ⟨rfl, hreg⟩
    · exact Or.inl ⟨p, hold, rfl⟩
    · exact Or.inr ⟨rfl, hreg⟩
  · rintro (⟨p, hp, rfl⟩ | ⟨he, hreg⟩)
    · exact ⟨p, (mem_allInsts_setInstIn_fresh sys cn id v hfresh p).mpr
        (Or.inl hp), rfl⟩
    · exact ⟨(id, v), (mem_allInsts_setInstIn_fresh sys cn id v hfresh
        (id, v)).mpr (Or.inr ⟨rfl, hreg⟩), he.symm⟩

/-- `pushOnce` never touches the parent reference. -/
theorem pushOnce_parent (nid : String) (i : RInst) :
    (pushOnce nid i).parentInstanceId = i.parentInstanceId := by
  unfold pushOnce
  by_cases h : nid ∈ i.siblingInstanceIds <;> simp [h]

/-- The pushed id is in the result of `pushOnce`. -/
theorem pushOnce_mem_self (nid : String) (i : RInst) :
    nid ∈ (pushOnce nid i).siblingInstanceIds := by
  unfold pushOnce
  by_cases h : nid ∈ i.siblingInstanceIds <;> simp [h]

/-- Membership after `pushOnce`. -/
theorem pushOnce_mem_iff (nid x : String) (i : RInst) :
    x ∈ (pushOnce nid i).siblingInstanceIds ↔
      x ∈ i.siblingInstanceIds ∨ x = nid := by
  unfold pushOnce
  by_cases h : nid ∈ i.siblingInstanceIds
  · rw [if_pos h]
    constructor
    · exact Or.inl
    · rintro (hx | rfl)
      · exact hx
      · exact h
  · rw [if_neg h]
    simp

/-- `pushOnce` is idempotent. -/
theorem pushOnce_idem (nid : String) (i : RInst) :
    pushOnce nid (pushOnce nid i) = pushOnce nid i := by
  unfold pushOnce
  by_cases h : nid ∈ i.siblingInstanceIds
  · simp [h]
  · rw [if_neg h]
    simp

/-- A push targeting another slot leaves a slot unchanged. -/
theorem pushStep_other (nid : String) (s : RSys) (sid : String)
    (cn id : String) (h : ¬(cn = prefixOf sid ∧ id = sid)) :
    (pushStep nid s sid).instAt? cn id = s.instAt? cn id := by
  unfold pushStep
  cases h1 : s.findComp (prefixOf sid) with
  | none => rfl
  | some c =>
    dsimp only
    cases h2 : c.findInst sid with
    | none => rfl
    | some i =>
      exact modifyInst_instAt_ne s (prefixOf sid) sid (pushOnce nid) cn id
        (not_and_or.mp h)

/-- A push at a present slot applies `pushOnce` there. -/
theorem pushStep_mem (nid : String) (s : RSys) (sid : String)
    (hpres : (s.instAt? (prefixOf sid) sid).isSome) :
    (pushStep nid s sid).instAt? (prefixOf sid) sid =
      (s.instAt? (prefixOf sid) sid).map (pushOnce nid) := by
  unfold pushStep
  cases h1 : s.findComp (prefixOf sid) with
  | none =>
    unfold RSys.instAt? at hpres
    rw [h1] at hpres
    cases hpres
  | some c =>
    dsimp only
    cases h2 : c.findInst sid with
    | none =>
      unfold RSys.instAt? at hpres
      rw [h1] at hpres
      dsimp only [Option.bind] at hpres
      rw [h2] at hpres
      cases hpres
    | some i =>
      exact modifyInst_instAt_eq s (prefixOf sid) sid (pushOnce nid)

/-- A push loop avoiding a slot leaves it unchanged. -/
theorem pushFold_other (nid : String) (sibs : List String) (s : RSys)
    (cn id : String) (h : ∀ sid ∈ sibs, ¬(cn = prefixOf sid ∧ id = sid)) :
    (sibs.foldl (pushStep nid) s).instAt? cn id = s.instAt? cn id := by
  induction sibs generalizing s with
  | nil => rfl
  | cons x rest ih =>
    rw [List.foldl_cons, ih (pushStep nid s x)
      (fun sid hs => h sid (List.mem_cons_of_mem x hs)),
      pushStep_other nid s x cn id (h x (List.mem_cons_self x rest))]

/-- A push loop over a list containing a present slot's id applies
`pushOnce` to it exactly once (idempotently). -/
theorem pushFold_mem (nid : String) (sibs : List String) (s : RSys)
    (id : String) (hmem : id ∈ sibs)
    (hpres : (s.instAt? (prefixOf id) id).isSome) :
    (sibs.foldl (pushStep nid) s).instAt? (prefixOf id) id =
      (s.instAt? (prefixOf id) id).map (pushOnce nid) := by
  induction sibs generalizing s with
  | nil => cases hmem
  | cons x rest ih =>
    rw [List.foldl_cons]
    by_cases hx : x = id
    · subst hx
      have hstep := pushStep_mem nid s x hpres
      by_cases hr : x ∈ rest
      · have hpres' : ((pushStep nid s x).instAt? (prefixOf x) x).isSome := by
          rw [pushStep_isSome]
          exact hpres
        rw [ih (pushStep nid s x) hr hpres', hstep]
        cases hv : s.instAt? (prefixOf x) x with
        | none => rfl
        | some v => simp [pushOnce_idem]
      · rw [pushFold_other nid rest (pushStep nid s x) (prefixOf x) x
          (fun sid hs hc => hr (by rw [hc.2]; exact hs))]
        exact hstep
    · have hpres' : ((pushStep nid s x).instAt? (prefixOf id) id).isSome := by
        rw [pushStep_isSome]
        exact hpres
      have hmem' : id ∈ rest := by
        rcases List.mem_cons.mp hmem with h | h
        · exact absurd h.symm hx
        · exact h
      rw [ih (pushStep nid s x) hmem' hpres',
        pushStep_other nid s x (prefixOf id) id (fun hc => hx hc.2.symm)]

/-- Membership in the computed sibling cohort of `createInstance`. -/
theorem createSiblings_mem (s : RSys) (instanceId : String)
    (dp : Option String) (id' : String) :
    id' ∈ createSiblings s instanceId dp ↔
      ∃ p ∈ s.allInsts, p.1 = id' ∧ id' ≠ instanceId ∧
        ((if strTruthy dp then p.2.parentInstanceId == dp
          else !(strTruthy p.2.parentInstanceId)) = true) := by
  unfold createSiblings
  have hiff : ∀ q : String × RInst,
      ((if q.1 = instanceId then false
        else if strTruthy dp then q.2.parentInstanceId == dp
        else !(strTruthy q.2.parentInstanceId)) = true) ↔
      (¬(q.1 = instanceId) ∧
        (if strTruthy dp then q.2.parentInstanceId == dp
         else !(strTruthy q.2.parentInstanceId)) = true) := by
    intro q
    by_cases h : q.1 = instanceId <;> simp [h]
  constructor
  · intro h
    obtain ⟨p, hp, hp1⟩ := List.mem_map.mp h
    have hf := List.mem_filter.mp hp
    have hc := (hiff p).mp hf.2
    exact ⟨p, hf.1, hp1, fun hh => hc.1 (hp1.trans hh), hc.2⟩
  · rintro ⟨p, hp, hp1, hne, hcond⟩
    exact List.mem_map.mpr ⟨p, List.mem_filter.mpr ⟨hp,
      (hiff p).mpr ⟨fun hh => hne (hp1.symm.trans hh), hcond⟩⟩, hp1⟩

/-- The created slot after `createInstanceCore`: parent and children as
given, sibling list the computed cohort. -/
theorem createInstanceCore_instAt_new (sys : RSys)
    (componentId instanceId : String) (dataParent : Option String)
    (dataChildren : List String) (hcomp : (sys.findComp componentId).isSome)
    (hfresh : instanceId ∉ sys.allIds) :
    (((createInstanceCore sys componentId instanceId dataParent
        dataChildren).instAt? componentId instanceId).map
      (fun i => (i.parentInstanceId, i.childInstanceIds,
        i.siblingInstanceIds))) =
      some (dataParent, dataChildren,
        createSiblings (sys.setInstIn componentId instanceId
          ⟨dataParent, dataChildren, [], 0⟩) instanceId dataParent) := by
  unfold createInstanceCore
  dsimp only
  have h1 : ∀ sid ∈ createSiblings (sys.setInstIn componentId instanceId
      ⟨dataParent, dataChildren, [], 0⟩) instanceId dataParent,
      ¬(componentId = prefixOf sid ∧ instanceId = sid) := by
    intro sid hs hc
    obtain ⟨p, _, _, hne, _⟩ := (createSiblings_mem _ _ _ sid).mp hs
    exact hne hc.2.symm
  rw [pushFold_other instanceId _ _ componentId instanceId h1,
    modifyInst_instAt_eq, modifyInst_instAt_eq,
    setInstIn_instAt sys componentId instanceId _ hfresh componentId instanceId,
    if_pos ⟨rfl, rfl⟩]
  obtain ⟨c, hc⟩ := Option.isSome_iff_exists.mp hcomp
  rw [hc]
  rfl

/-- A slot that is neither the created instance nor an addressable cohort
member is unchanged by `createInstanceCore`. -/
theorem createInstanceCore_instAt_out (sys : RSys)
    (componentId instanceId : String) (dataParent : Option String)
    (dataChildren : List String) (cn' id' : String) (hid : id' ≠ instanceId)
    (hnot : id' ∉ createSiblings (sys.setInstIn componentId instanceId
        ⟨dataParent, dataChildren, [], 0⟩) instanceId dataParent ∨
      cn' ≠ prefixOf id') :
    (createInstanceCore sys componentId instanceId dataParent
      dataChildren).instAt? cn' id' = sys.instAt? cn' id' := by
  unfold createInstanceCore
  dsimp only
  have h1 : ∀ sid ∈ createSiblings (sys.setInstIn componentId instanceId
      ⟨dataParent, dataChildren, [], 0⟩) instanceId dataParent,
      ¬(cn' = prefixOf sid ∧ id' = sid) := by
    intro sid hs hc
    rcases hnot with hm | hcn
    · exact hm (hc.2 ▸ hs)
    · exact hcn (hc.2 ▸ hc.1)
  rw [pushFold_other instanceId _ _ cn' id' h1,
    modifyInst_instAt_ne _ _ _ _ _ _ (Or.inr hid),
    modifyInst_instAt_ne _ _ _ _ _ _ (Or.inr hid),
    setInstIn_instAt_ne _ _ _ _ _ _ hid]

/-- The pre-loop state of `createInstanceCore` agrees with the original
system at every other id. -/
theorem triple_instAt_ne (sys : RSys) (cn id : String) (v : RInst)
    (f g : RInst → RInst) (cn' id' : String) (hid : id' ≠ id) :
    ((((sys.setInstIn cn id v).modifyInst cn id f).modifyInst cn id
      g).instAt? cn' id') = sys.instAt? cn' id' := by
  rw [modifyInst_instAt_ne _ _ _ _ _ _ (Or.inr hid),
    modifyInst_instAt_ne _ _ _ _ _ _ (Or.inr hid),
    setInstIn_instAt_ne _ _ _ _ _ _ hid]

/-- A cohort member's slot receives exactly one `pushOnce` of the created
id. -/
theorem createInstanceCore_instAt_sib (sys : RSys)
    (componentId instanceId : String) (dataParent : Option String)
    (dataChildren : List String) (id' : String) (hid : id' ≠ instanceId)
    (hmem : id' ∈ createSiblings (sys.setInstIn componentId instanceId
        ⟨dataParent, dataChildren, [], 0⟩) instanceId dataParent)
    (hpres : (sys.instAt? (prefixOf id') id').isSome) :
    (createInstanceCore sys componentId instanceId dataParent
      dataChildren).instAt? (prefixOf id') id' =
      (sys.instAt? (prefixOf id') id').map (pushOnce instanceId) := by
  unfold createInstanceCore
  dsimp only
  rw [pushFold_mem instanceId _ _ id' hmem (by
    rw [triple_instAt_ne sys componentId instanceId _ _ _ (prefixOf id')
      id' hid]
    exact hpres)]
  rw [triple_instAt_ne sys componentId instanceId _ _ _ (prefixOf id')
    id' hid]

/-- A sibling push preserves well-formedness. -/
theorem pushStep_WF (nid : String) (s : RSys) (sid : String) :
    (pushStep nid s sid).WF ↔ s.WF := by
  unfold pushStep
  cases h1 : s.findComp (prefixOf sid) with
  | none => exact Iff.rfl
  | some c =>
    dsimp only
    cases h2 : c.findInst sid with
    | none => exact Iff.rfl
    | some i => exact modifyInst_WF s (prefixOf sid) sid (pushOnce nid)

/-- The push loop preserves well-formedness. -/
theorem pushFold_WF (nid : String) (sibs : List String) (s : RSys) :
    (sibs.foldl (pushStep nid) s).WF ↔ s.WF := by
  induction sibs generalizing s with
  | nil => exact Iff.rfl
  | cons x rest ih => rw [List.foldl_cons, ih, pushStep_WF]

/-- A sibling push does not change the stored ids. -/
theorem pushStep_allIds (nid : String) (s : RSys) (sid : String) :
    (pushStep nid s sid).allIds = s.allIds := by
  unfold pushStep
  cases h1 : s.findComp (prefixOf sid) with
  | none => rfl
  | some c =>
    dsimp only
    cases h2 : c.findInst sid with
    | none => rfl
    | some i => exact modifyInst_allIds s (prefixOf sid) sid (pushOnce nid)

/-- The push loop does not change the stored ids. -/
theorem pushFold_allIds (nid : String) (sibs : List String) (s : RSys) :
    (sibs.foldl (pushStep nid) s).allIds = s.allIds := by
  induction sibs generalizing s with
  | nil => rfl
  | cons x rest ih => rw [List.foldl_cons, ih, pushStep_allIds]

/-- `createInstanceCore` stores exactly the original ids plus the created
one. -/
theorem createInstanceCore_allIds (sys : RSys)
    (componentId instanceId : String) (dataParent : Option String)
    (dataChildren : List String) :
    (createInstanceCore sys componentId instanceId dataParent
      dataChildren).allIds =
    (sys.setInstIn componentId instanceId
      ⟨dataParent, dataChildren, [], 0⟩).allIds := by
  unfold createInstanceCore
  dsimp only
  rw [pushFold_allIds, modifyInst_allIds, modifyInst_allIds]

/-- `createInstanceCore` preserves well-formedness when the created id is
fresh and carries its component's prefix. -/
theorem createInstanceCore_WF (sys : RSys)
    (componentId instanceId : String) (dataParent : Option String)
    (dataChildren : List String) (hwf : sys.WF)
    (hpre : prefixOf instanceId = componentId)
    (hfresh : instanceId ∉ sys.allIds) (hne : instanceId ≠ ("")) :
    (createInstanceCore sys componentId instanceId dataParent
      dataChildren).WF := by
  unfold createInstanceCore
  dsimp only
  rw [pushFold_WF, modifyInst_WF, modifyInst_WF]
  exact setInstIn_WF_fresh sys componentId instanceId _ hwf hfresh hpre hne

/-- Every stored slot of `createInstanceCore` is either the created record
(parent and cohort as computed) or an original record, unchanged except for
one `pushOnce` of the created id when the slot is a cohort member. -/
theorem createInstanceCore_slot_cases (sys : RSys)
    (componentId instanceId : String) (dataParent : Option String)
    (dataChildren : List String) (hwf : sys.WF)
    (hpre : prefixOf instanceId = componentId)
    (hfresh : instanceId ∉ sys.allIds) (hne : instanceId ≠ (""))
    (hcomp : (sys.findComp componentId).isSome)
    (cn' id' : String) (v : RInst)
    (hslot : (createInstanceCore sys componentId instanceId dataParent
      dataChildren).instAt? cn' id' = some v) :
    (id' = instanceId ∧ cn' = componentId ∧
      v.parentInstanceId = dataParent ∧
      v.siblingInstanceIds = createSiblings (sys.setInstIn componentId
        instanceId ⟨dataParent, dataChildren, [], 0⟩) instanceId
        dataParent) ∨
    (id' ≠ instanceId ∧ ∃ w, sys.instAt? cn' id' = some w ∧
      ((id' ∉ createSiblings (sys.setInstIn componentId instanceId
          ⟨dataParent, dataChildren, [], 0⟩) instanceId dataParent ∧
        v = w) ∨
       (id' ∈ createSiblings (sys.setInstIn componentId instanceId
          ⟨dataParent, dataChildren, [], 0⟩) instanceId dataParent ∧
        v = pushOnce instanceId w))) := by
  have hcwf := createInstanceCore_WF sys componentId instanceId dataParent
    dataChildren hwf hpre hfresh hne
  obtain ⟨c', hcm, hcname, hmemv⟩ := mem_of_instAt _ cn' id' v hslot
  have hcnp : prefixOf id' = cn' :=
    (((hcwf.2 c' hcm).2 (id', v) hmemv).1).trans hcname
  by_cases hpid : id' = instanceId
  · subst hpid
    have hcc : cn' = componentId := (hcnp.symm).trans hpre
    subst hcc
    left
    have hnew := createInstanceCore_instAt_new sys cn' id'
      dataParent dataChildren hcomp hfresh
    rw [hslot] at hnew
    simp only [Option.map, Option.some.injEq, Prod.mk.injEq] at hnew
    exact ⟨rfl, rfl, hnew.1, hnew.2.2⟩
  · right
    refine ⟨hpid, ?_⟩
    by_cases hS : id' ∈ createSiblings (sys.setInstIn componentId instanceId
        ⟨dataParent, dataChildren, [], 0⟩) instanceId dataParent
    · obtain ⟨q, hq, hq1, _, _⟩ := (createSiblings_mem _ _ _ id').mp hS
      have hqsys : q ∈ sys.allInsts := by
        rcases (mem_allInsts_setInstIn_fresh sys componentId instanceId _
          hfresh q).mp hq with h | ⟨hq2, _⟩
        · exact h
        · exact absurd (hq1.symm.trans (by rw [hq2])) hpid
      have hqslot := (allInsts_mem_iff sys hwf q).mp hqsys
      rw [hq1] at hqslot
      have hsib := createInstanceCore_instAt_sib sys componentId instanceId
        dataParent dataChildren id' hpid hS (by rw [hqslot]; rfl)
      rw [← hcnp] at hslot
      rw [hsib, hqslot] at hslot
      refine ⟨q.2, by rw [← hcnp]; exact hqslot, Or.inr ⟨hS, ?_⟩⟩
      exact ((Option.some.injEq _ _).mp hslot).symm
    · have hout := createInstanceCore_instAt_out sys componentId instanceId
        dataParent dataChildren cn' id' hpid (Or.inl hS)
      rw [hout] at hslot
      exact ⟨v, hslot, Or.inl ⟨hS, rfl⟩⟩

/-- The cohort condition pins the member's parent to the created instance's
parent, given that neither is the empty-string reference. -/
theorem cond_parent_eq (dataParent : Option String) (hdp : dataParent ≠ some (""))
    (w : RInst) (hwne : w.parentInstanceId ≠ some (""))
    (hcond : (if strTruthy dataParent then w.parentInstanceId == dataParent
      else !(strTruthy w.parentInstanceId)) = true) :
    w.parentInstanceId = dataParent := by
  by_cases ht : strTruthy dataParent = true
  · rw [if_pos ht] at hcond
    exact eq_of_beq hcond
  · rw [if_neg ht] at hcond
    have hdpn : dataParent = none := by
      cases hdpc : dataParent with
      | none => rfl
      | some s =>
        rw [hdpc] at ht
        unfold strTruthy at ht
        simp at ht
        exact absurd (by rw [hdpc, ht]) hdp
    have hwn : w.parentInstanceId = none := by
      cases hwc : w.parentInstanceId with
      | none => rfl
      | some t =>
        rw [hwc] at hcond
        unfold strTruthy at hcond
        simp at hcond
        exact absurd (by rw [hwc, hcond]) hwne
    rw [hwn, hdpn]

/-- A cohort member's stored record satisfies the cohort condition. -/
theorem createSiblings_cond_of_mem (sys : RSys)
    (componentId instanceId : String) (dataParent : Option String)
    (dataChildren : List String) (hwf : sys.WF)
    (hfresh : instanceId ∉ sys.allIds) (x : String)
    (hx : x ∈ createSiblings (sys.setInstIn componentId instanceId
      ⟨dataParent, dataChildren, [], 0⟩) instanceId dataParent)
    (w : RInst) (hwslot : sys.instAt? (prefixOf x) x = some w) :
    (if strTruthy dataParent then w.parentInstanceId == dataParent
      else !(strTruthy w.parentInstanceId)) = true := by
  obtain ⟨q, hq, hq1, hne2, hcond⟩ := (createSiblings_mem _ _ _ x).mp hx
  have hqsys : q ∈ sys.allInsts := by
    rcases (mem_allInsts_setInstIn_fresh sys componentId instanceId _
      hfresh q).mp hq with h | ⟨hq2, _⟩
    · exact h
    · exact absurd (hq1.symm.trans (by rw [hq2])) hne2
  have hqslot := (allInsts_mem_iff sys hwf q).mp hqsys
  rw [hq1] at hqslot
  rw [hwslot] at hqslot
  have hwq : w = q.2 := (Option.some.injEq _ _).mp hqslot
  rw [hwq]
  exact hcond

/-- The full invariant is preserved by the body of `createInstance` under
the id conventions the relationship code relies on: the created id carries
the component prefix, is globally fresh and nonempty, and the parent
reference is not the empty string. -/
theorem createInstanceCore_InvGood (sys : RSys)
    (componentId instanceId : String) (dataParent : Option String)
    (dataChildren : List String) (hinv : sys.InvGood)
    (hpre : prefixOf instanceId = componentId)
    (hfresh : instanceId ∉ sys.allIds) (hne : instanceId ≠ (""))
    (hdp : dataParent ≠ some (""))
    (hcomp : (sys.findComp componentId).isSome) :
    (createInstanceCore sys componentId instanceId dataParent
      dataChildren).InvGood := by
  obtain ⟨hwf, hnep, hnd, hss⟩ := hinv
  have hcwf := createInstanceCore_WF sys componentId instanceId dataParent
    dataChildren hwf hpre hfresh hne
  have hreg : ∃ c ∈ sys.comps, c.name = componentId := by
    obtain ⟨c, hc⟩ := Option.isSome_iff_exists.mp hcomp
    exact ⟨c, List.mem_of_find?_eq_some hc,
      of_decide_eq_true (find?_pred _ sys.comps c hc)⟩
  have hids : ∀ x, x ∈ (createInstanceCore sys componentId instanceId
      dataParent dataChildren).allIds ↔ (x ∈ sys.allIds ∨ x = instanceId) := by
    intro x
    rw [createInstanceCore_allIds,
      mem_allIds_setInstIn_fresh sys componentId instanceId _ hfresh x]
    constructor
    · rintro (h | ⟨h, _⟩)
      exacts [Or.inl h, Or.inr h]
    · rintro (h | h)
      exacts [Or.inl h, Or.inr ⟨h, hreg⟩]
  refine ⟨hcwf, ?_, ?_, ?_⟩
  · intro c' hc' p hp
    have hslot := instAt_of_mem _ hcwf c' hc' p hp
    rcases createInstanceCore_slot_cases sys componentId instanceId
      dataParent dataChildren hwf hpre hfresh hne hcomp c'.name p.1 p.2
      hslot with ⟨_, _, hpar, _⟩ | ⟨_, w, hwslot, hv⟩
    · rw [hpar]
      exact hdp
    · obtain ⟨c0, hc0, _, hm0⟩ := mem_of_instAt sys _ _ w hwslot
      have hwnp := hnep c0 hc0 (p.1, w) hm0
      rcases hv with ⟨_, hv1⟩ | ⟨_, hv2⟩
      · rw [hv1]
        exact hwnp
      · rw [hv2, pushOnce_parent]
        exact hwnp
  · intro c' hc' p hp s hsin
    have hslot := instAt_of_mem _ hcwf c' hc' p hp
    rcases createInstanceCore_slot_cases sys componentId instanceId
      dataParent dataChildren hwf hpre hfresh hne hcomp c'.name p.1 p.2
      hslot with ⟨_, _, _, hsibs⟩ | ⟨_, w, hwslot, hv⟩
    · rw [hsibs] at hsin
      obtain ⟨q, hq, hq1, _, _⟩ := (createSiblings_mem _ _ _ s).mp hsin
      rw [hids s]
      rcases (mem_allInsts_setInstIn_fresh sys componentId instanceId _
        hfresh q).mp hq with h | ⟨hq2, _⟩
      · exact Or.inl (by rw [← hq1]; exact List.mem_map_of_mem _ h)
      · exact Or.inr (by rw [← hq1, hq2])
    · obtain ⟨c0, hc0, _, hm0⟩ := mem_of_instAt sys _ _ w hwslot
      rw [hids s]
      rcases hv with ⟨_, hv1⟩ | ⟨_, hv2⟩
      · rw [hv1] at hsin
        exact Or.inl (hnd c0 hc0 (p.1, w) hm0 s hsin)
      · rw [hv2] at hsin
        rcases (pushOnce_mem_iff instanceId s w).mp hsin with h | h
        · exact Or.inl (hnd c0 hc0 (p.1, w) hm0 s h)
        · exact Or.inr h
  · intro cA hcA cB hcB a haA b hbB hmem
    have hslotA := instAt_of_mem _ hcwf cA hcA a haA
    have hslotB := instAt_of_mem _ hcwf cB hcB b hbB
    have hcnpA : prefixOf a.1 = cA.name := ((hcwf.2 cA hcA).2 a haA).1
    have hcnpB : prefixOf b.1 = cB.name := ((hcwf.2 cB hcB).2 b hbB).1
    rcases createInstanceCore_slot_cases sys componentId instanceId
      dataParent dataChildren hwf hpre hfresh hne hcomp cA.name a.1 a.2
      hslotA with hA | ⟨hneA, wA, hwA, hvA⟩
    · rcases createInstanceCore_slot_cases sys componentId instanceId
        dataParent dataChildren hwf hpre hfresh hne hcomp cB.name b.1 b.2
        hslotB with hB | ⟨hneB, wB, hwB, hvB⟩
      · exfalso
        rw [hA.2.2.2] at hmem
        obtain ⟨_, _, _, hne2, _⟩ := (createSiblings_mem _ _ _ b.1).mp hmem
        exact hne2 hB.1
      · rw [hA.2.2.2] at hmem
        rcases hvB with ⟨hBnS, _⟩ | ⟨_, hv2⟩
        · exact absurd hmem hBnS
        · constructor
          · rw [hA.1, hv2]
            exact pushOnce_mem_self instanceId wB
          · rw [hA.2.2.1, hv2, pushOnce_parent]
            have hwBslot' : sys.instAt? (prefixOf b.1) b.1 = some wB := by
              rw [hcnpB]
              exact hwB
            have hcond := createSiblings_cond_of_mem sys componentId
              instanceId dataParent dataChildren hwf hfresh b.1 hmem wB
              hwBslot'
            obtain ⟨c0, hc0, _, hm0⟩ := mem_of_instAt sys _ _ wB hwB
            exact (cond_parent_eq dataParent hdp wB
              (hnep c0 hc0 (b.1, wB) hm0) hcond).symm
    · rcases createInstanceCore_slot_cases sys componentId instanceId
        dataParent dataChildren hwf hpre hfresh hne hcomp cB.name b.1 b.2
        hslotB with hB | ⟨hneB, wB, hwB, hvB⟩
      · rcases hvA with ⟨hAnS, hv1⟩ | ⟨hAS, hv2⟩
        · exfalso
          rw [hv1] at hmem
          obtain ⟨c0, hc0, _, hm0⟩ := mem_of_instAt sys _ _ wA hwA
          have hdang := hnd c0 hc0 (a.1, wA) hm0 b.1 hmem
          rw [hB.1] at hdang
          exact hfresh hdang
        · constructor
          · rw [hB.2.2.2]
            exact hAS
          · rw [hv2, pushOnce_parent, hB.2.2.1]
            have hwAslot' : sys.instAt? (prefixOf a.1) a.1 = some wA := by
              rw [hcnpA]
              exact hwA
            have hcond := createSiblings_cond_of_mem sys componentId
              instanceId dataParent dataChildren hwf hfresh a.1 hAS wA
              hwAslot'
            obtain ⟨c0, hc0, _, hm0⟩ := mem_of_instAt sys _ _ wA hwA
            exact cond_parent_eq dataParent hdp wA
              (hnep c0 hc0 (a.1, wA) hm0) hcond
      · have hmemw : b.1 ∈ wA.siblingInstanceIds := by
          rcases hvA with ⟨_, hv1⟩ | ⟨_, hv2⟩
          · rw [hv1] at hmem
            exact hmem
          · rw [hv2] at hmem
            rcases (pushOnce_mem_iff instanceId b.1 wA).mp hmem with h | h
            · exact h
            · exact absurd h hneB
        obtain ⟨c0, hc0, hc0n, hm0⟩ := mem_of_instAt sys _ _ wA hwA
        obtain ⟨c1, hc1, hc1n, hm1⟩ := mem_of_instAt sys _ _ wB hwB
        have hsym := hss c0 hc0 c1 hc1 (a.1, wA) hm0 (b.1, wB) hm1 hmemw
        constructor
        · rcases hvB with ⟨_, hv1⟩ | ⟨_, hv2⟩
          · rw [hv1]
            exact hsym.1
          · rw [hv2]
            exact (pushOnce_mem_iff instanceId a.1 wB).mpr (Or.inl hsym.1)
        · have hpA : a.2.parentInstanceId = wA.parentInstanceId := by
            rcases hvA with ⟨_, hv1⟩ | ⟨_, hv2⟩
            · rw [hv1]
            · rw [hv2, pushOnce_parent]
          have hpB : b.2.parentInstanceId = wB.parentInstanceId := by
            rcases hvB with ⟨_, hv1⟩ | ⟨_, hv2⟩
            · rw [hv1]
            · rw [hv2, pushOnce_parent]
          rw [hpA, hpB]
          exact hsym.2

/-- Every stored slot appears in the slot-pair enumeration. -/
theorem slot_mem_pairsOf (t : RSys) (cn id : String) (v : RInst)
    (h : t.instAt? cn id = some v) : (cn, id) ∈ pairsOf t := by
  obtain ⟨c, hc, hname, hmem⟩ := mem_of_instAt t cn id v h
  unfold pairsOf
  refine List.mem_flatMap.mpr ⟨c, hc, ?_⟩
  rw [← hname]
  exact List.mem_map.mpr ⟨(id, v), hmem, rfl⟩

/-- Every enumerated slot pair is stored (under well-formedness). -/
theorem pairsOf_mem_slot (t : RSys) (hwf : t.WF) (pr : String × String)
    (h : pr ∈ pairsOf t) : ∃ v, t.instAt? pr.1 pr.2 = some v := by
  unfold pairsOf at h
  obtain ⟨c, hc, hm⟩ := List.mem_flatMap.mp h
  obtain ⟨p, hp, heq⟩ := List.mem_map.mp hm
  rcases heq with rfl
  exact ⟨p.2, instAt_of_mem t hwf c hc p hp⟩

/-- Every enumerated slot pair carries its component's name as prefix. -/
theorem pairsOf_snd_prefixOf (t : RSys) (hwf : t.WF) (pr : String × String)
    (h : pr ∈ pairsOf t) : prefixOf pr.2 = pr.1 := by
  unfold pairsOf at h
  obtain ⟨c, hc, hm⟩ := List.mem_flatMap.mp h
  obtain ⟨p, hp, heq⟩ := List.mem_map.mp hm
  rcases heq with rfl
  exact ((hwf.2 c hc).2 p hp).1

/-- The slot-pair enumeration has no duplicates under well-formedness. -/
theorem pairsOf_nodup (sys : RSys) (hwf : sys.WF) : (pairsOf sys).Nodup := by
  unfold pairsOf
  rw [List.nodup_flatMap]
  constructor
  · intro c hc
    have : c.insts.map (fun p => (c.name, p.1)) =
        (c.insts.map (fun p => p.1)).map (fun k => (c.name, k)) := by
      rw [List.map_map]
      rfl
    rw [this]
    exact ((hwf.2 c hc).1).map (fun a b hab =>
      ((Prod.mk.injEq _ _ _ _).mp hab).2)
  · have hpw : sys.comps.Pairwise (fun a b => a.name ≠ b.name) := by
      have h := hwf.1
      unfold List.Nodup at h
      rw [List.pairwise_map] at h
      exact h
    refine hpw.imp ?_
    intro a b hab x hxa hxb
    obtain ⟨p, _, rfl⟩ := List.mem_map.mp hxa
    obtain ⟨q, _, heq⟩ := List.mem_map.mp hxb
    exact hab (((Prod.mk.injEq _ _ _ _).mp heq).1).symm

/-- Unfolding of the cohort slot test. -/
theorem sibCohortPred_true_iff (t : RSys) (X P : String)
    (pr : String × String) :
    sibCohortPred t X P pr = true ↔
      (pr.2 ≠ X ∧ ((t.instAt? pr.1 pr.2).map
        (fun i => i.parentInstanceId)) = some (some P)) := by
  unfold sibCohortPred
  rw [Bool.and_eq_true, bne_iff_ne, beq_iff_eq]

/-- The cohort over an appended pair list splits. -/
theorem sibCohort_append (t : RSys) (X P : String)
    (l1 l2 : List (String × String)) :
    sibCohort t X P (l1 ++ l2) = sibCohort t X P l1 ++ sibCohort t X P l2 := by
  unfold sibCohort
  rw [List.filter_append, List.map_append]

/-- The cohort of a single accepted slot. -/
theorem sibCohort_single_true (t : RSys) (X P : String)
    (pr : String × String) (h : sibCohortPred t X P pr = true) :
    sibCohort t X P [pr] = [pr.2] := by
  unfold sibCohort
  rw [List.filter_singleton, h]
  rfl

/-- The cohort of a single rejected slot. -/
theorem sibCohort_single_false (t : RSys) (X P : String)
    (pr : String × String) (h : sibCohortPred t X P pr = false) :
    sibCohort t X P [pr] = [] := by
  unfold sibCohort
  rw [List.filter_singleton, h]
  rfl

/-- Cohort members and membership characterization. -/
theorem sibCohort_mem (t : RSys) (X P : String)
    (prs : List (String × String)) (y : String) :
    y ∈ sibCohort t X P prs ↔
      ∃ pr ∈ prs, pr.2 = y ∧ y ≠ X ∧
        ((t.instAt? pr.1 pr.2).map (fun i => i.parentInstanceId)) =
          some (some P) := by
  unfold sibCohort
  constructor
  · intro h
    obtain ⟨pr, hpr, hy⟩ := List.mem_map.mp h
    have hf := List.mem_filter.mp hpr
    have hc := (sibCohortPred_true_iff t X P pr).mp hf.2
    exact ⟨pr, hf.1, hy, fun hh => hc.1 (hy.trans hh), hc.2⟩
  · rintro ⟨pr, hpr, hy, hne, hpar⟩
    exact List.mem_map.mpr ⟨pr, List.mem_filter.mpr ⟨hpr,
      (sibCohortPred_true_iff t X P pr).mpr
        ⟨fun hh => hne (hy.symm.trans hh), hpar⟩⟩, hy⟩

/-- Cohort members are never the child id itself. -/
theorem sibCohort_mem_ne (t : RSys) (X P : String)
    (prs : List (String × String)) (y : String)
    (h : y ∈ sibCohort t X P prs) : y ≠ X := by
  obtain ⟨pr, _, _, hne, _⟩ := (sibCohort_mem t X P prs y).mp h
  exact hne

/-- The rebuild step on a missing slot is the identity. -/
theorem sipStep_none (X P CC : String) (s : RSys) (pr : String × String)
    (hslot : s.instAt? pr.1 pr.2 = none) : sipStep X P CC s pr = s := by
  unfold sipStep
  rw [hslot]

/-- The rebuild step on a prune-branch slot (the child itself, or a slot
whose parent is not the new parent): the visited slot's sibling list is
filtered of the child id, everything else keeps its relationship fields. -/
theorem sipStep_relF_prune (X P CC : String) (s : RSys)
    (pr : String × String) (inst : RInst)
    (hslot : s.instAt? pr.1 pr.2 = some inst)
    (hcond : pr.2 = X ∨ inst.parentInstanceId ≠ some P) (cn id : String) :
    ((sipStep X P CC s pr).instAt? cn id).map relF =
      if cn = pr.1 ∧ id = pr.2 then
        some (inst.parentInstanceId,
          inst.siblingInstanceIds.filter (fun x => x ≠ X))
      else (s.instAt? cn id).map relF := by
  unfold sipStep
  rw [hslot]
  dsimp only
  rw [if_pos hcond]
  have h1 : ((s.modifyInst pr.1 pr.2 (fun i =>
      { i with siblingInstanceIds :=
        i.siblingInstanceIds.filter (fun x => x ≠ X) })).instAt? pr.1 pr.2) =
      some { inst with siblingInstanceIds :=
        inst.siblingInstanceIds.filter (fun x => x ≠ X) } := by
    rw [modifyInst_instAt_eq, hslot]
    rfl
  rw [h1]
  dsimp only
  by_cases hcc : cn = pr.1 ∧ id = pr.2
  ·
    rw [hcc.1, hcc.2, if_pos ⟨rfl, rfl⟩, modifyInst_instAt_eq, h1]
    rfl
  ·
    rw [if_neg hcc, modifyInst_instAt_ne _ _ _ _ _ _ (not_and_or.mp hcc),
      modifyInst_instAt_ne _ _ _ _ _ _ (not_and_or.mp hcc)]

/-- The rebuild step on an append-branch slot whose sibling list already
contains the child: only the child's own list gains the visited id. -/
theorem sipStep_relF_append_present (X P CC : String) (s : RSys)
    (pr : String × String) (inst : RInst)
    (hslot : s.instAt? pr.1 pr.2 = some inst)
    (hne2 : ¬ pr.2 = X) (hpar : inst.parentInstanceId = some P)
    (hXin : X ∈ inst.siblingInstanceIds) (cn id : String) :
    ((sipStep X P CC s pr).instAt? cn id).map relF =
      if cn = CC ∧ id = X then
        (s.instAt? CC X).map (fun i =>
          (i.parentInstanceId, i.siblingInstanceIds ++ [pr.2]))
      else (s.instAt? cn id).map relF := by
  unfold sipStep
  rw [hslot]
  dsimp only
  rw [if_neg (by rintro (h | h); exacts [hne2 h, h hpar]), if_pos hXin]
  by_cases hcc : cn = CC ∧ id = X
  · rw [hcc.1, hcc.2, if_pos ⟨rfl, rfl⟩, modifyInst_instAt_eq,
      modifyInst_instAt_eq]
    cases hv : s.instAt? CC X with
    | none => rfl
    | some v => rfl
  · rw [if_neg hcc, modifyInst_instAt_ne _ _ _ _ _ _ (not_and_or.mp hcc),
      modifyInst_instAt_ne _ _ _ _ _ _ (not_and_or.mp hcc)]

/-- Slot lookup through `modifyInst` at a slot equal to the modified one,
phrased without substituting the lookup coordinates. -/
theorem modifyInst_instAt_eq2 (sys : RSys) (cn id : String)
    (f : RInst → RInst) (cn' id' : String) (h : cn' = cn ∧ id' = id) :
    (sys.modifyInst cn id f).instAt? cn' id' = (sys.instAt? cn id).map f := by
  rw [h.1, h.2, modifyInst_instAt_eq]

/-- The rebuild step on an append-branch slot not yet holding the child:
the child's list gains the visited id and the visited slot gains the
child. -/
theorem sipStep_relF_append_absent (X P CC : String) (s : RSys)
    (pr : String × String) (inst : RInst)
    (hslot : s.instAt? pr.1 pr.2 = some inst)
    (hne2 : ¬ pr.2 = X) (hpar : inst.parentInstanceId = some P)
    (hXout : X ∉ inst.siblingInstanceIds) (cn id : String) :
    ((sipStep X P CC s pr).instAt? cn id).map relF =
      if cn = CC ∧ id = X then
        (s.instAt? CC X).map (fun i =>
          (i.parentInstanceId, i.siblingInstanceIds ++ [pr.2]))
      else if cn = pr.1 ∧ id = pr.2 then
        some (inst.parentInstanceId, inst.siblingInstanceIds ++ [X])
      else (s.instAt? cn id).map relF := by
  unfold sipStep
  rw [hslot]
  dsimp only
  rw [if_neg (by rintro (h | h); exacts [hne2 h, h hpar]), if_neg hXout]
  by_cases hcc1 : cn = CC ∧ id = X
  · have hneP : cn ≠ pr.1 ∨ id ≠ pr.2 :=
      Or.inr (by rw [hcc1.2]; exact fun h => hne2 h.symm)
    rw [if_pos hcc1,
      modifyInst_instAt_ne _ pr.1 pr.2 _ cn id hneP,
      modifyInst_instAt_ne _ pr.1 pr.2 _ cn id hneP,
      modifyInst_instAt_eq2 _ CC X _ cn id hcc1,
      modifyInst_instAt_eq2 _ CC X _ CC X ⟨rfl, rfl⟩]
    cases hv : s.instAt? CC X with
    | none => rfl
    | some v => rfl
  · by_cases hcc2 : cn = pr.1 ∧ id = pr.2
    · rw [if_neg hcc1, if_pos hcc2,
        modifyInst_instAt_eq2 _ pr.1 pr.2 _ cn id hcc2,
        modifyInst_instAt_eq2 _ pr.1 pr.2 _ pr.1 pr.2 ⟨rfl, rfl⟩,
        modifyInst_instAt_ne _ CC X _ pr.1 pr.2 (Or.inr hne2),
        modifyInst_instAt_ne _ CC X _ pr.1 pr.2 (Or.inr hne2), hslot]
      rfl
    · rw [if_neg hcc1, if_neg hcc2,
        modifyInst_instAt_ne _ pr.1 pr.2 _ cn id (not_and_or.mp hcc2),
        modifyInst_instAt_ne _ pr.1 pr.2 _ cn id (not_and_or.mp hcc2),
        modifyInst_instAt_ne _ CC X _ cn id (not_and_or.mp hcc1),
        modifyInst_instAt_ne _ CC X _ cn id (not_and_or.mp hcc1)]

/-- One step of the rebuild loop preserves the loop invariant. -/
theorem sipStep_inv (X P CC : String) (t : RSys) (hwt : t.WF)
    (hXpre : prefixOf X = CC) (done : List (String × String)) (s : RSys)
    (hinv : sipInv X P CC t done s) (pr : String × String)
    (hpr : pr ∈ pairsOf t) (hnd : pr ∉ done) :
    sipInv X P CC t (done ++ [pr]) (sipStep X P CC s pr) := by
  obtain ⟨hA, hB, hC⟩ := hinv
  obtain ⟨tv, htv⟩ := pairsOf_mem_slot t hwt pr hpr
  obtain ⟨xv, hxv, hxrel⟩ := Option.map_eq_some'.mp hA
  unfold relF at hxrel
  rw [Prod.mk.injEq] at hxrel
  by_cases hprX : pr = (CC, X)
  · subst hprX
    have hchar := sipStep_relF_prune X P CC s (CC, X) xv hxv (Or.inl rfl)
    refine ⟨?_, ?_, ?_⟩
    · rw [hchar CC X, if_pos ⟨rfl, rfl⟩]
      have hfe : (sibCohort t X P done).filter (fun x => x ≠ X) =
          sibCohort t X P done :=
        List.filter_eq_self.mpr (fun a ha =>
          decide_eq_true (sibCohort_mem_ne t X P done a ha))
      rw [hxrel.1, hxrel.2, hfe, sibCohort_append,
        sibCohort_single_false t X P (CC, X) (by unfold sibCohortPred; simp),
        List.append_nil]
    · intro pr' hpr' hne' tv' htv'
      rcases List.mem_append.mp hpr' with h | h
      · rw [hchar pr'.1 pr'.2, if_neg (fun hc => hne'
          (by rw [show pr' = (pr'.1, pr'.2) from rfl, hc.1, hc.2]))]
        exact hB pr' h hne' tv' htv'
      · exact absurd (List.mem_singleton.mp h) hne'
    · intro cn id hne' hnotdone'
      rw [hchar cn id, if_neg (fun hc => hne' ⟨hc.1, hc.2⟩)]
      exact hC cn id hne' (fun h => hnotdone' (List.mem_append_left _ h))
  · have hne2 : ¬ pr.2 = X := by
      intro h
      have hp1 : pr.1 = CC := by
        rw [← hXpre, ← h]
        exact (pairsOf_snd_prefixOf t hwt pr hpr).symm
      exact hprX (by rw [show pr = (pr.1, pr.2) from rfl, hp1, h])
    have hCpr : ¬(pr.1 = CC ∧ pr.2 = X) := fun hc => hne2 hc.2
    have hsrel := hC pr.1 pr.2 hCpr hnd
    rw [htv] at hsrel
    obtain ⟨v, hv, hvrel⟩ := Option.map_eq_some'.mp hsrel
    have hvrel2 : relF v = relF tv := hvrel
    unfold relF at hvrel2
    rw [Prod.mk.injEq] at hvrel2
    have hprnd : ∀ pr' ∈ done, ¬(pr'.1 = pr.1 ∧ pr'.2 = pr.2) := by
      intro pr' h hc
      exact hnd (by
        rw [show pr = (pr.1, pr.2) from rfl, ← hc.1, ← hc.2,
          show (pr'.1, pr'.2) = pr' from rfl]
        exact h)
    have hpredtrue : tv.parentInstanceId = some P →
        sibCohortPred t X P pr = true := fun hpar =>
      (sibCohortPred_true_iff t X P pr).mpr ⟨hne2, by
        rw [htv]
        simp only [Option.map]
        rw [hpar]⟩
    have hpredfalse : ¬ tv.parentInstanceId = some P →
        sibCohortPred t X P pr = false := by
      intro hpar
      cases hb : sibCohortPred t X P pr with
      | false => rfl
      | true =>
        obtain ⟨_, hmap⟩ := (sibCohortPred_true_iff t X P pr).mp hb
        rw [htv] at hmap
        simp only [Option.map] at hmap
        exact absurd ((Option.some.injEq _ _).mp hmap) hpar
    by_cases hpar : tv.parentInstanceId = some P
    · by_cases hXin : X ∈ v.siblingInstanceIds
      · have hchar := sipStep_relF_append_present X P CC s pr v hv hne2
          (by rw [hvrel2.1]; exact hpar) hXin
        refine ⟨?_, ?_, ?_⟩
        · rw [hchar CC X, if_pos ⟨rfl, rfl⟩, hxv]
          simp only [Option.map]
          rw [hxrel.1, hxrel.2, sibCohort_append,
            sibCohort_single_true t X P pr (hpredtrue hpar)]
        · intro pr' hpr' hne' tv' htv'
          rcases List.mem_append.mp hpr' with h | h
          · rw [hchar pr'.1 pr'.2, if_neg (fun hc => hne'
              (by rw [show pr' = (pr'.1, pr'.2) from rfl, hc.1, hc.2]))]
            exact hB pr' h hne' tv' htv'
          · have hpr'eq : pr' = pr := List.mem_singleton.mp h
            subst hpr'eq
            have htveq : tv' = tv := by
              rw [htv] at htv'
              exact (Option.some.injEq _ _).mp htv'.symm
            subst htveq
            rw [hchar pr'.1 pr'.2, if_neg hCpr, hv]
            simp only [Option.map]
            unfold sipFinalSibs
            rw [if_pos hpar, if_pos (by rw [← hvrel2.2]; exact hXin)]
            unfold relF
            rw [hvrel2.1, hvrel2.2]
        · intro cn id hne' hnotdone'
          rw [hchar cn id, if_neg hne']
          exact hC cn id hne' (fun h => hnotdone' (List.mem_append_left _ h))
      · have hchar := sipStep_relF_append_absent X P CC s pr v hv hne2
          (by rw [hvrel2.1]; exact hpar) hXin
        refine ⟨?_, ?_, ?_⟩
        · rw [hchar CC X, if_pos ⟨rfl, rfl⟩, hxv]
          simp only [Option.map]
          rw [hxrel.1, hxrel.2, sibCohort_append,
            sibCohort_single_true t X P pr (hpredtrue hpar)]
        · intro pr' hpr' hne' tv' htv'
          rcases List.mem_append.mp hpr' with h | h
          · rw [hchar pr'.1 pr'.2, if_neg (fun hc => hne'
              (by rw [show pr' = (pr'.1, pr'.2) from rfl, hc.1, hc.2])),
              if_neg (hprnd pr' h)]
            exact hB pr' h hne' tv' htv'
          · have hpr'eq : pr' = pr := List.mem_singleton.mp h
            subst hpr'eq
            have htveq : tv' = tv := by
              rw [htv] at htv'
              exact (Option.some.injEq _ _).mp htv'.symm
            subst htveq
            rw [hchar pr'.1 pr'.2, if_neg hCpr, if_pos ⟨rfl, rfl⟩]
            unfold sipFinalSibs
            rw [if_pos hpar, if_neg (by rw [← hvrel2.2]; exact hXin)]
            rw [hvrel2.1, hvrel2.2]
        · intro cn id hne' hnotdone'
          have hnepr : ¬(cn = pr.1 ∧ id = pr.2) := by
            intro hc
            exact hnotdone' (List.mem_append_right _ (by
              rw [hc.1, hc.2]
              exact List.mem_singleton.mpr
                (by rw [show pr = (pr.1, pr.2) from rfl])))
          rw [hchar cn id, if_neg hne', if_neg hnepr]
          exact hC cn id hne' (fun h => hnotdone' (List.mem_append_left _ h))
    · have hchar := sipStep_relF_prune X P CC s pr v hv
        (Or.inr (by rw [hvrel2.1]; exact hpar))
      refine ⟨?_, ?_, ?_⟩
      · rw [hchar CC X, if_neg (fun hc => hne2 hc.2.symm), hA,
          sibCohort_append, sibCohort_single_false t X P pr (hpredfalse hpar),
          List.append_nil]
      · intro pr' hpr' hne' tv' htv'
        rcases List.mem_append.mp hpr' with h | h
        · rw [hchar pr'.1 pr'.2, if_neg (hprnd pr' h)]
          exact hB pr' h hne' tv' htv'
        · have hpr'eq : pr' = pr := List.mem_singleton.mp h
          subst hpr'eq
          have htveq : tv' = tv := by
            rw [htv] at htv'
            exact (Option.some.injEq _ _).mp htv'.symm
          subst htveq
          rw [hchar pr'.1 pr'.2, if_pos ⟨rfl, rfl⟩]
          unfold sipFinalSibs
          rw [if_neg hpar, hvrel2.1, hvrel2.2]
      · intro cn id hne' hnotdone'
        have hnepr : ¬(cn = pr.1 ∧ id = pr.2) := by
          intro hc
          exact hnotdone' (List.mem_append_right _ (by
            rw [hc.1, hc.2]
            exact List.mem_singleton.mpr
              (by rw [show pr = (pr.1, pr.2) from rfl])))
        rw [hchar cn id, if_neg hnepr]
        exact hC cn id hne' (fun h => hnotdone' (List.mem_append_left _ h))

/-- One rebuild step preserves well-formedness. -/
theorem sipStep_WF (X P CC : String) (s : RSys) (pr : String × String) :
    (sipStep X P CC s pr).WF ↔ s.WF := by
  unfold sipStep
  cases h0 : s.instAt? pr.1 pr.2 with
  | none => exact Iff.rfl
  | some inst =>
    dsimp only
    by_cases hcond : pr.2 = X ∨ inst.parentInstanceId ≠ some P
    · rw [if_pos hcond]
      cases h1 : ((s.modifyInst pr.1 pr.2 (fun i =>
          { i with siblingInstanceIds :=
            i.siblingInstanceIds.filter (fun x => x ≠ X) })).instAt?
          pr.1 pr.2) with
      | none => rw [modifyInst_WF]
      | some i1 => rw [modifyInst_WF, modifyInst_WF]
    · rw [if_neg hcond]
      by_cases hXin : X ∈ inst.siblingInstanceIds
      · rw [if_pos hXin, modifyInst_WF, modifyInst_WF]
      · rw [if_neg hXin, modifyInst_WF, modifyInst_WF, modifyInst_WF,
          modifyInst_WF]

/-- The rebuild loop preserves well-formedness. -/
theorem sipFold_WF (X P CC : String) (prs : List (String × String))
    (s : RSys) : (prs.foldl (sipStep X P CC) s).WF ↔ s.WF := by
  induction prs generalizing s with
  | nil => exact Iff.rfl
  | cons x rest ih => rw [List.foldl_cons, ih, sipStep_WF]

/-- One rebuild step does not change the stored ids. -/
theorem sipStep_allIds (X P CC : String) (s : RSys) (pr : String × String) :
    (sipStep X P CC s pr).allIds = s.allIds := by
  unfold sipStep
  cases h0 : s.instAt? pr.1 pr.2 with
  | none => rfl
  | some inst =>
    dsimp only
    by_cases hcond : pr.2 = X ∨ inst.parentInstanceId ≠ some P
    · rw [if_pos hcond]
      cases h1 : ((s.modifyInst pr.1 pr.2 (fun i =>
          { i with siblingInstanceIds :=
            i.siblingInstanceIds.filter (fun x => x ≠ X) })).instAt?
          pr.1 pr.2) with
      | none => rw [modifyInst_allIds]
      | some i1 => rw [modifyInst_allIds, modifyInst_allIds]
    · rw [if_neg hcond]
      by_cases hXin : X ∈ inst.siblingInstanceIds
      · rw [if_pos hXin, modifyInst_allIds, modifyInst_allIds]
      · rw [if_neg hXin, modifyInst_allIds, modifyInst_allIds,
          modifyInst_allIds, modifyInst_allIds]

/-- The rebuild loop does not change the stored ids. -/
theorem sipFold_allIds (X P CC : String) (prs : List (String × String))
    (s : RSys) : (prs.foldl (sipStep X P CC) s).allIds = s.allIds := by
  induction prs generalizing s with
  | nil => rfl
  | cons x rest ih => rw [List.foldl_cons, ih, sipStep_allIds]

/-- Ids of enumerated slots are stored ids. -/
theorem pairsOf_snd_mem_allIds (t : RSys) (pr : String × String)
    (h : pr ∈ pairsOf t) : pr.2 ∈ t.allIds := by
  unfold pairsOf at h
  obtain ⟨c, hc, hm⟩ := List.mem_flatMap.mp h
  obtain ⟨p, hp, heq⟩ := List.mem_map.mp hm
  rcases heq with rfl
  exact (mem_allIds t p.1).mpr ⟨c, hc, p, hp, rfl⟩

/-- Members of a post-loop sibling list come from the pre-loop list or are
the child. -/
theorem sipFinalSibs_mem (X P : String) (tv : RInst) (y : String)
    (h : y ∈ sipFinalSibs X P tv) : y ∈ tv.siblingInstanceIds ∨ y = X := by
  unfold sipFinalSibs at h
  by_cases hpar : tv.parentInstanceId = some P
  · rw [if_pos hpar] at h
    by_cases hXin : X ∈ tv.siblingInstanceIds
    · rw [if_pos hXin] at h
      exact Or.inl h
    · rw [if_neg hXin] at h
      rcases List.mem_append.mp h with h2 | h2
      · exact Or.inl h2
      · exact Or.inr (List.mem_singleton.mp h2)
  · rw [if_neg hpar] at h
    exact Or.inl (List.mem_filter.mp h).1

/-- A pre-loop sibling other than the child survives the loop. -/
theorem sipFinalSibs_mem_of (X P : String) (tv : RInst) (y : String)
    (hy : y ∈ tv.siblingInstanceIds) (hyne : y ≠ X) :
    y ∈ sipFinalSibs X P tv := by
  unfold sipFinalSibs
  by_cases hpar : tv.parentInstanceId = some P
  · rw [if_pos hpar]
    by_cases hXin : X ∈ tv.siblingInstanceIds
    · rw [if_pos hXin]
      exact hy
    · rw [if_neg hXin]
      exact List.mem_append_left _ hy
  · rw [if_neg hpar]
    exact List.mem_filter.mpr ⟨hy, decide_eq_true hyne⟩

/-- A slot under the new parent holds the child after the loop. -/
theorem sipFinalSibs_child_mem (X P : String) (tv : RInst)
    (hpar : tv.parentInstanceId = some P) : X ∈ sipFinalSibs X P tv := by
  unfold sipFinalSibs
  rw [if_pos hpar]
  by_cases hXin : X ∈ tv.siblingInstanceIds
  · rw [if_pos hXin]
    exact hXin
  · rw [if_neg hXin]
    exact List.mem_append_right _ (List.mem_singleton.mpr rfl)

/-- The rebuild loop starting from the invariant ends in the invariant over
the visited slots. -/
theorem sipFold_inv (X P CC : String) (t : RSys) (hwt : t.WF)
    (hXpre : prefixOf X = CC) :
    ∀ (prs done : List (String × String)) (s : RSys),
      (∀ pr ∈ prs, pr ∈ pairsOf t) →
      (∀ pr ∈ prs, pr ∉ done) →
      prs.Nodup →
      sipInv X P CC t done s →
      sipInv X P CC t (done ++ prs) (prs.foldl (sipStep X P CC) s) := by
  intro prs
  induction prs with
  | nil =>
    intro done s _ _ _ hinv
    rw [List.append_nil]
    exact hinv
  | cons head rest ih =>
    intro done s hsub hnd hnodup hinv
    rw [List.foldl_cons]
    have hstep := sipStep_inv X P CC t hwt hXpre done s hinv head
      (hsub head (List.mem_cons_self head rest))
      (hnd head (List.mem_cons_self head rest))
    have hrec := ih (done ++ [head]) (sipStep X P CC s head)
      (fun pr h => hsub pr (List.mem_cons_of_mem _ h))
      (fun pr h hmem => by
        rcases List.mem_append.mp hmem with h1 | h2
        · exact hnd pr (List.mem_cons_of_mem _ h) h1
        · exact (List.nodup_cons.mp hnodup).1
            ((List.mem_singleton.mp h2) ▸ h))
      ((List.nodup_cons.mp hnodup).2)
      hstep
    rw [List.append_assoc] at hrec
    exact hrec

/-- The pre-loop state of `setInstanceParent` at the child slot: parent set
to the new parent, sibling list cleared. -/
theorem sipPre_child_slot (sys : RSys) (X P CC PC : String) (xv : RInst)
    (hxv : sys.instAt? CC X = some xv) :
    ∃ z, ((((sys.modifyInst CC X (fun i =>
        { i with parentInstanceId := some P })).modifyInst PC P (fun i =>
        if X ∈ i.childInstanceIds then i
        else { i with childInstanceIds :=
          i.childInstanceIds ++ [X] })).modifyInst CC X (fun i =>
        { i with siblingInstanceIds := ([] : List String) })).instAt?
        CC X) = some z ∧
      z.parentInstanceId = some P ∧ z.siblingInstanceIds = [] := by
  have hf2p : ∀ i : RInst, ((fun i => if X ∈ i.childInstanceIds then i
      else { i with childInstanceIds := i.childInstanceIds ++ [X] })
        i).parentInstanceId = i.parentInstanceId := by
    intro i
    by_cases hc : X ∈ i.childInstanceIds <;> simp [hc]
  by_cases hmid : CC = PC ∧ X = P
  · rw [modifyInst_instAt_eq2 _ CC X _ CC X ⟨rfl, rfl⟩,
      modifyInst_instAt_eq2 _ PC P _ CC X ⟨hmid.1, hmid.2⟩,
      modifyInst_instAt_eq2 _ CC X _ PC P ⟨hmid.1.symm, hmid.2.symm⟩, hxv]
    refine ⟨_, rfl, ?_, rfl⟩
    exact hf2p ({ xv with parentInstanceId := some P })
  · have hne : CC ≠ PC ∨ X ≠ P := not_and_or.mp hmid
    rw [modifyInst_instAt_eq2 _ CC X _ CC X ⟨rfl, rfl⟩,
      modifyInst_instAt_ne _ PC P _ CC X hne,
      modifyInst_instAt_eq2 _ CC X _ CC X ⟨rfl, rfl⟩, hxv]
    exact ⟨_, rfl, rfl, rfl⟩

/-- The pre-loop state of `setInstanceParent` keeps the relationship fields
of every other slot. -/
theorem sipPre_other_slots (sys : RSys) (X P CC PC : String)
    (cn id : String) (hne : ¬(cn = CC ∧ id = X)) :
    (((((sys.modifyInst CC X (fun i =>
        { i with parentInstanceId := some P })).modifyInst PC P (fun i =>
        if X ∈ i.childInstanceIds then i
        else { i with childInstanceIds :=
          i.childInstanceIds ++ [X] })).modifyInst CC X (fun i =>
        { i with siblingInstanceIds := ([] : List String) })).instAt?
        cn id).map relF) = (sys.instAt? cn id).map relF := by
  have hf2 : ∀ i : RInst, relF ((fun i => if X ∈ i.childInstanceIds then i
      else { i with childInstanceIds := i.childInstanceIds ++ [X] }) i) =
      relF i := by
    intro i
    by_cases hc : X ∈ i.childInstanceIds <;> simp [relF, hc]
  rw [modifyInst_instAt_ne _ CC X _ cn id (not_and_or.mp hne),
    modifyInst_map_proj relF _ PC P _ hf2 cn id,
    modifyInst_instAt_ne _ CC X _ cn id (not_and_or.mp hne)]

/-- The pre-loop state of `setInstanceParent` preserves well-formedness. -/
theorem sipPre_WF (sys : RSys) (X P CC PC : String) :
    ((((sys.modifyInst CC X (fun i =>
        { i with parentInstanceId := some P })).modifyInst PC P (fun i =>
        if X ∈ i.childInstanceIds then i
        else { i with childInstanceIds :=
          i.childInstanceIds ++ [X] })).modifyInst CC X (fun i =>
        { i with siblingInstanceIds := ([] : List String) })).WF) ↔
      sys.WF := by
  rw [modifyInst_WF, modifyInst_WF, modifyInst_WF]

/-- The pre-loop state of `setInstanceParent` stores the same ids. -/
theorem sipPre_allIds (sys : RSys) (X P CC PC : String) :
    ((((sys.modifyInst CC X (fun i =>
        { i with parentInstanceId := some P })).modifyInst PC P (fun i =>
        if X ∈ i.childInstanceIds then i
        else { i with childInstanceIds :=
          i.childInstanceIds ++ [X] })).modifyInst CC X (fun i =>
        { i with siblingInstanceIds := ([] : List String) })).allIds) =
      sys.allIds := by
  rw [modifyInst_allIds, modifyInst_allIds, modifyInst_allIds]

/-- Relationship fields of a non-child slot of the pre-loop state match a
stored record of the original system. -/
theorem sip_sys_slot (sysO t : RSys) (CC X : String)
    (hother : ∀ cn id, ¬(cn = CC ∧ id = X) →
      (t.instAt? cn id).map relF = (sysO.instAt? cn id).map relF)
    (cn id : String) (tv : RInst) (hcx : ¬(cn = CC ∧ id = X))
    (htv : t.instAt? cn id = some tv) :
    ∃ w, sysO.instAt? cn id = some w ∧
      w.parentInstanceId = tv.parentInstanceId ∧
      w.siblingInstanceIds = tv.siblingInstanceIds := by
  have h2 := hother cn id hcx
  rw [htv] at h2
  cases hs : sysO.instAt? cn id with
  | none =>
    rw [hs] at h2
    simp only [Option.map] at h2
    exact Option.noConfusion h2
  | some w =>
    rw [hs] at h2
    simp only [Option.map] at h2
    have h3 := (Option.some.injEq _ _).mp h2
    unfold relF at h3
    rw [Prod.mk.injEq] at h3
    exact ⟨w, rfl, h3.1.symm, h3.2.symm⟩

/-- The rebuild loop of `setInstanceParent`, run from the pre-loop state
over all slots, preserves the full invariant. -/
theorem sipLoop_InvGood (sysO t : RSys) (X P CC : String)
    (hinvO : sysO.InvGood) (hwt : t.WF) (hids : t.allIds = sysO.allIds)
    (hXpre : prefixOf X = CC) (hXid : X ∈ sysO.allIds) (hPne : P ≠ (""))
    (htX : (t.instAt? CC X).map relF = some (some P, []))
    (hother : ∀ cn id, ¬(cn = CC ∧ id = X) →
      (t.instAt? cn id).map relF = (sysO.instAt? cn id).map relF) :
    ((pairsOf t).foldl (sipStep X P CC) t).InvGood := by
  obtain ⟨hwf, hnep, hnd, hss⟩ := hinvO
  have hbase : sipInv X P CC t [] t := by
    refine ⟨?_, ?_, ?_⟩
    · rw [htX]
      rfl
    · intro pr hpr
      cases hpr
    · intro cn id _ _
      rfl
  have hfin := sipFold_inv X P CC t hwt hXpre (pairsOf t) [] t
    (fun pr h => h) (fun pr _ h => absurd h (List.not_mem_nil pr))
    (pairsOf_nodup t hwt) hbase
  rw [List.nil_append] at hfin
  obtain ⟨hfA, hfB, hfC⟩ := hfin
  have hwfF : ((pairsOf t).foldl (sipStep X P CC) t).WF :=
    (sipFold_WF X P CC (pairsOf t) t).mpr hwt
  have hidsF : ((pairsOf t).foldl (sipStep X P CC) t).allIds = sysO.allIds :=
    (sipFold_allIds X P CC (pairsOf t) t).trans hids
  have hslotF : ∀ cn id v,
      ((pairsOf t).foldl (sipStep X P CC) t).instAt? cn id = some v →
      (cn = CC ∧ id = X ∧ v.parentInstanceId = some P ∧
        v.siblingInstanceIds = sibCohort t X P (pairsOf t)) ∨
      (¬(cn = CC ∧ id = X) ∧ ∃ tv, t.instAt? cn id = some tv ∧
        v.parentInstanceId = tv.parentInstanceId ∧
        v.siblingInstanceIds = sipFinalSibs X P tv) := by
    intro cn id v hv
    by_cases hcx : cn = CC ∧ id = X
    · left
      rw [hcx.1, hcx.2] at hv
      rw [hv] at hfA
      simp only [Option.map] at hfA
      have h3 := (Option.some.injEq _ _).mp hfA
      unfold relF at h3
      rw [Prod.mk.injEq] at h3
      exact ⟨hcx.1, hcx.2, h3.1, h3.2⟩
    · right
      have hpair : (cn, id) ∈ pairsOf t := by
        by_contra hno
        have h2 := hfC cn id hcx hno
        rw [hv] at h2
        cases ht2 : t.instAt? cn id with
        | none =>
          rw [ht2] at h2
          simp only [Option.map] at h2
          exact Option.noConfusion h2
        | some tv => exact hno (slot_mem_pairsOf t cn id tv ht2)
      obtain ⟨tv, htv⟩ := pairsOf_mem_slot t hwt (cn, id) hpair
      have hBap := hfB (cn, id) hpair (fun he => hcx
        ⟨congrArg Prod.fst he, congrArg Prod.snd he⟩) tv htv
      rw [hv] at hBap
      simp only [Option.map] at hBap
      have h3 := (Option.some.injEq _ _).mp hBap
      unfold relF at h3
      rw [Prod.mk.injEq] at h3
      exact ⟨hcx, tv, htv, h3.1, h3.2⟩
  refine ⟨hwfF, ?_, ?_, ?_⟩
  · intro c' hc' p hp
    have hvF := instAt_of_mem _ hwfF c' hc' p hp
    rcases hslotF c'.name p.1 p.2 hvF with ⟨_, _, hpar, _⟩ |
      ⟨hcx, tv, htv, hpnt, _⟩
    · intro habs
      rw [hpar] at habs
      exact hPne ((Option.some.injEq _ _).mp habs)
    · obtain ⟨w, hw, hwp, _⟩ := sip_sys_slot sysO t CC X hother c'.name
        p.1 tv hcx htv
      obtain ⟨c0, hc0, _, hm0⟩ := mem_of_instAt sysO _ _ w hw
      have hwnp := hnep c0 hc0 (p.1, w) hm0
      intro habs
      rw [hpnt, ← hwp] at habs
      exact hwnp habs
  · intro c' hc' p hp s2 hs2
    have hvF := instAt_of_mem _ hwfF c' hc' p hp
    rw [hidsF]
    rcases hslotF c'.name p.1 p.2 hvF with ⟨_, _, _, hsibs⟩ |
      ⟨hcx, tv, htv, _, hsibs⟩
    · rw [hsibs] at hs2
      obtain ⟨pr, hpr, hpr2, _, _⟩ :=
        (sibCohort_mem t X P (pairsOf t) s2).mp hs2
      rw [← hids, ← hpr2]
      exact pairsOf_snd_mem_allIds t pr hpr
    · rw [hsibs] at hs2
      rcases sipFinalSibs_mem X P tv s2 hs2 with h | h
      · obtain ⟨w, hw, _, hws⟩ := sip_sys_slot sysO t CC X hother c'.name
          p.1 tv hcx htv
        rw [← hws] at h
        obtain ⟨c0, hc0, _, hm0⟩ := mem_of_instAt sysO _ _ w hw
        exact hnd c0 hc0 (p.1, w) hm0 s2 h
      · rw [h]
        exact hXid
  · intro cA hcA cB hcB a haA b hbB hmem
    have hvA := instAt_of_mem _ hwfF cA hcA a haA
    have hvB := instAt_of_mem _ hwfF cB hcB b hbB
    have hpA : prefixOf a.1 = cA.name := ((hwfF.2 cA hcA).2 a haA).1
    have hpB : prefixOf b.1 = cB.name := ((hwfF.2 cB hcB).2 b hbB).1
    rcases hslotF cA.name a.1 a.2 hvA with ⟨hA1, hA2, hA3, hA4⟩ |
      ⟨hAx, tvA, htvA, hA3, hA4⟩
    · rw [hA4] at hmem
      obtain ⟨prB, hprB, hprB2, hbne, hbpar⟩ :=
        (sibCohort_mem t X P (pairsOf t) b.1).mp hmem
      rcases hslotF cB.name b.1 b.2 hvB with ⟨hB1, hB2, _, _⟩ |
        ⟨hBx, tvB, htvB, hB3, hB4⟩
      · exact absurd hB2 hbne
      · have hprB1 : prB.1 = cB.name := by
          rw [← (pairsOf_snd_prefixOf t hwt prB hprB), hprB2, hpB]
        rw [hprB1, hprB2, htvB] at hbpar
        simp only [Option.map] at hbpar
        have htvBpar : tvB.parentInstanceId = some P :=
          (Option.some.injEq _ _).mp hbpar
        constructor
        · rw [hA2, hB4]
          exact sipFinalSibs_child_mem X P tvB htvBpar
        · rw [hA3, hB3, htvBpar]
    · rcases hslotF cB.name b.1 b.2 hvB with ⟨hB1, hB2, hB3, hB4⟩ |
        ⟨hBx, tvB, htvB, hB3, hB4⟩
      · rw [hB2] at hmem
        rw [hA4] at hmem
        have htvApar : tvA.parentInstanceId = some P := by
          by_contra hno
          unfold sipFinalSibs at hmem
          rw [if_neg hno] at hmem
          have h2 := (List.mem_filter.mp hmem).2
          simp at h2
        constructor
        · rw [hB4]
          refine (sibCohort_mem t X P (pairsOf t) a.1).mpr
            ⟨(cA.name, a.1), slot_mem_pairsOf t cA.name a.1 tvA htvA, rfl,
              fun h => hAx ⟨by rw [← hpA, h, hXpre], h⟩, ?_⟩
          show ((t.instAt? cA.name a.1).map
            (fun i => i.parentInstanceId)) = some (some P)
          rw [htvA]
          simp only [Option.map]
          rw [htvApar]
        · rw [hA3, hB3, htvApar]
      · have haXne : a.1 ≠ X := fun h => hAx ⟨by rw [← hpA, h, hXpre], h⟩
        have hbXne : b.1 ≠ X := fun h => hBx ⟨by rw [← hpB, h, hXpre], h⟩
        rw [hA4] at hmem
        have hmem2 : b.1 ∈ tvA.siblingInstanceIds := by
          rcases sipFinalSibs_mem X P tvA b.1 hmem with h | h
          · exact h
          · exact absurd h hbXne
        obtain ⟨wA, hwA, hwAp, hwAs⟩ := sip_sys_slot sysO t CC X hother
          cA.name a.1 tvA hAx htvA
        obtain ⟨wB, hwB, hwBp, hwBs⟩ := sip_sys_slot sysO t CC X hother
          cB.name b.1 tvB hBx htvB
        rw [← hwAs] at hmem2
        obtain ⟨c0, hc0, _, hm0⟩ := mem_of_instAt sysO _ _ wA hwA
        obtain ⟨c1, hc1, _, hm1⟩ := mem_of_instAt sysO _ _ wB hwB
        have hsym := hss c0 hc0 c1 hc1 (a.1, wA) hm0 (b.1, wB) hm1 hmem2
        constructor
        · rw [hB4]
          refine sipFinalSibs_mem_of X P tvB a.1 ?_ haXne
          rw [← hwBs]
          exact hsym.1
        · rw [hA3, hB3, ← hwAp, ← hwBp]
          exact hsym.2

/-- The mutation body of `setInstanceParent` preserves the full invariant
when child and parent resolve. -/
theorem sipCore_InvGood (sys : RSys) (X P CC PC : String)
    (hinv : sys.InvGood) (hCC : prefixOf X = CC) (_hPC : prefixOf P = PC)
    (hx : (sys.instAt? CC X).isSome) (hp : (sys.instAt? PC P).isSome) :
    (sipCore sys X P CC PC).InvGood := by
  obtain ⟨xv, hxv⟩ := Option.isSome_iff_exists.mp hx
  obtain ⟨pv, hpv⟩ := Option.isSome_iff_exists.mp hp
  have hwf := hinv.1
  have hwt := (sipPre_WF sys X P CC PC).mpr hwf
  have hids := sipPre_allIds sys X P CC PC
  have hXid : X ∈ sys.allIds := by
    obtain ⟨c, hc, _, hm⟩ := mem_of_instAt sys CC X xv hxv
    exact (mem_allIds sys X).mpr ⟨c, hc, (X, xv), hm, rfl⟩
  have hPne : P ≠ ("") := by
    obtain ⟨c, hc, _, hm⟩ := mem_of_instAt sys PC P pv hpv
    exact ((hwf.2 c hc).2 (P, pv) hm).2
  unfold sipCore
  dsimp only
  refine sipLoop_InvGood sys _ X P CC hinv hwt hids hCC hXid hPne ?_
    (sipPre_other_slots sys X P CC PC)
  obtain ⟨z, hz, hz1, hz2⟩ := sipPre_child_slot sys X P CC PC xv hxv
  rw [hz]
  simp only [Option.map]
  unfold relF
  rw [hz1, hz2]

/-- `setInstanceParent` preserves the full invariant. -/
theorem setInstanceParent_InvGood (sys sys' : RSys) (X P : String)
    (hinv : sys.InvGood) (hok : sys.setInstanceParent X P = .ok sys') :
    sys'.InvGood := by
  unfold RSys.setInstanceParent at hok
  dsimp only at hok
  cases h1 : sys.findComp (prefixOf X) with
  | none => rw [h1] at hok; cases hok
  | some cc =>
    rw [h1] at hok
    dsimp only at hok
    cases h2 : cc.findInst X with
    | none => rw [h2] at hok; cases hok
    | some xv =>
      rw [h2] at hok
      dsimp only at hok
      cases h3 : sys.findComp (prefixOf P) with
      | none => rw [h3] at hok; cases hok
      | some pc =>
        rw [h3] at hok
        dsimp only at hok
        cases h4 : pc.findInst P with
        | none => rw [h4] at hok; cases hok
        | some pv =>
          rw [h4] at hok
          dsimp only at hok
          cases hok
          exact sipCore_InvGood sys X P (prefixOf X) (prefixOf P) hinv rfl
            rfl
            (by
              unfold RSys.instAt?
              rw [h1]
              dsimp only [Option.bind]
              rw [h2]
              rfl)
            (by
              unfold RSys.instAt?
              rw [h3]
              dsimp only [Option.bind]
              rw [h4]
              rfl)

/-- C6 counterexample: sibling symmetry is not an unconditional invariant of
createInstance.  Bad-prefix scenario: after instance "alice" (no component
prefix) of component person, creating person_1 makes alice a sibling of
person_1, but alice's own list stays empty — the back-pointer push resolves
alice's component from the id prefix "alice" and finds none.  Overwrite
scenario: person_1 and person_2 are mutual siblings; re-creating person_1
with parent person_2 overwrites person_1's record (clearing its sibling
list), while person_2 still lists person_1 — and their parents now differ.
In both, the pre-state satisfies the invariant and the post-state violates
it. -/
theorem sibling_symmetry_counterexample :
    ((exceptSys c6BadPrefixStep1).SibSym ∧
      ¬ (exceptSys c6BadPrefixStep2).SibSym) ∧
    ((exceptSys c6OverwriteStep2).SibSym ∧
      ¬ (exceptSys c6OverwriteStep3).SibSym) :=
  ⟨⟨by decide, by decide⟩, ⟨by decide, by decide⟩⟩

/-- C6 (amended): sibling symmetry — strengthened to the full relationship
invariant (well-formed id skeleton, no empty-string parent references, no
dangling sibling references, and symmetry with parent agreement) — is
preserved by createInstance PROVIDED the created id carries its component's
name as underscore prefix, is globally fresh and nonempty, and the given
parent reference is not the empty string; it is preserved by every
successful setInstanceParent unconditionally.  The spec's relink scenario
holds: attaching childc_1 under parent_1, which already has children
childa_1 and childb_1, yields fully symmetric sibling lists. -/
theorem sibling_symmetry_amended :
    (∀ (sys sys' : RSys) (componentId instanceId : String)
        (dataParent : Option String) (dataChildren : List String),
      sys.InvGood →
      prefixOf instanceId = componentId →
      instanceId ∉ sys.allIds →
      instanceId ≠ ("") →
      dataParent ≠ some ("") →
      sys.createInstance componentId instanceId dataParent dataChildren =
        .ok sys' →
      sys'.InvGood) ∧
    (∀ (sys sys' : RSys) (childInstanceId parentInstanceId : String),
      sys.InvGood →
      sys.setInstanceParent childInstanceId parentInstanceId = .ok sys' →
      sys'.InvGood) ∧
    ((exceptSys c6Relinked).SibSym ∧
     (((exceptSys c6Relinked).instAt? ("childa") ("childa_1")).map
       (fun i => i.siblingInstanceIds)) =
         some [("childb_1"), ("childc_1")] ∧
     (((exceptSys c6Relinked).instAt? ("childb") ("childb_1")).map
       (fun i => i.siblingInstanceIds)) =
         some [("childa_1"), ("childc_1")] ∧
     (((exceptSys c6Relinked).instAt? ("childc") ("childc_1")).map
       (fun i => i.siblingInstanceIds)) =
         some [("childa_1"), ("childb_1")]) := by
  refine ⟨?_, ?_, by decide, by decide, by decide, by decide⟩
  · intro sys sys' componentId instanceId dataParent dataChildren hinv hpre
      hfresh hne hdp hok
    unfold RSys.createInstance at hok
    cases hc : sys.findComp componentId with
    | none => rw [hc] at hok; cases hok
    | some c =>
      rw [hc] at hok
      cases hok
      exact createInstanceCore_InvGood sys componentId instanceId dataParent
        dataChildren hinv hpre hfresh hne hdp (by rw [hc]; rfl)
  · intro sys sys' X P hinv hok
    exact setInstanceParent_InvGood sys sys' X P hinv hok

set_option maxHeartbeats 1000000 in
/-- Witness for C6: the creation of person_3 over the two-person store, and
the relink of childc_1 under parent_1, both preserve the invariant. -/
theorem sibling_symmetry_amended_witness :
    ((exceptSys c6OverwriteStep2).InvGood ∧
     prefixOf ("person_3") = ("person") ∧
     (("person_3") ∉ (exceptSys c6OverwriteStep2).allIds) ∧
     (("person_3") ≠ ("")) ∧
     ((none : Option String) ≠ some ("")) ∧
     (exceptSys c6OverwriteStep2).createInstance ("person") ("person_3")
       none [] = .ok (exceptSys ((exceptSys c6OverwriteStep2).createInstance
         ("person") ("person_3") none [])) ∧
     (exceptSys ((exceptSys c6OverwriteStep2).createInstance ("person")
       ("person_3") none [])).InvGood) ∧
    ((exceptSys c6RelinkBase).InvGood ∧
     (exceptSys c6RelinkBase).setInstanceParent ("childc_1") ("parent_1") =
       .ok (exceptSys c6Relinked) ∧
     (exceptSys c6Relinked).InvGood) :=
  ⟨⟨by decide, by decide, by decide, by decide, by decide, by decide,
    sibling_symmetry_amended.1 (exceptSys c6OverwriteStep2) _ ("person")
      ("person_3") none [] (by decide) (by decide) (by decide) (by decide)
      (by decide) (by decide)⟩,
   ⟨by decide, by decide,
    sibling_symmetry_amended.2.1 (exceptSys c6RelinkBase)
      (exceptSys c6Relinked) ("childc_1") ("parent_1") (by decide)
      (by decide)⟩⟩
